import Mathlib

/-!
Verification development for the warcex WACZ extraction pipeline.

This file gives a shallow embedding of the core of the repository:
`src/warcex/plugmanager.py` (pattern routing, registry, sideloading,
finalisation) and `src/warcex/processor.py` (two-pass WARC pairing,
extraction loop, archive member materialisation, processor opening),
and proves or refutes the frozen behavioural claims about it.

Modeling conventions:
- Python strings are Lean `String`s; character-level work uses `String.data`.
- Python dicts are association lists with Python-dict assignment semantics
  (`dictUpsert`): assigning to an existing key keeps its position and
  replaces its value; a new key is appended at the end, so iteration order
  is insertion order, as in CPython.
- The Python `re` engine is abstracted by an oracle
  `search : String → String → Bool` giving the truth of
  `re.compile(src).search(url) is not None`.  The two regex shapes the code
  itself constructs (`^re.escape(p)$` and `^re.escape(p).*$`) are also
  given concrete semantics (`pyExactMatch`, `pyPrefixMatch`) derived from
  the documented behaviour of Python's `re`: `^` matches only at the start
  (no MULTILINE flag), `$` matches at the end of the string or just before
  a newline at the end of the string, and `.` matches anything except a
  newline.  `FaithfulFor` links the oracle to these concrete semantics.
- `urllib.parse.unquote` (percent-decoding) is abstracted by an oracle
  `unquote : String → String`; claims that need it only assume it is the
  identity on percent-free strings, which is true of the real function.
- Plugin (handler) behaviour is abstracted: a plugin is a `PluginSpec`
  (its `get_info().name` and `get_endpoints()` list); whether a plugin's
  `extract` raises on a given pair is an oracle `fails : Nat → Pair → Bool`
  indexed by the plugin's registry position.
- File system and dynamic import are abstracted by oracles for the claims
  about `__init__`, `_extract_file` and `sideload_plugin`.
- In this snapshot of the repository, `warcex/data.py` defines
  `ResponseData` as a `typing.Protocol`, and instantiating a Protocol class
  raises `TypeError`; so the `ResponseData(...)` call in pass 2 of
  `iter_request_response_pairs` raises at the first response record whose
  id is among the retained concurrent-to ids, and the exception escapes the
  generator and aborts `extract()` before any finalisation.  The faithful
  semantics of the pipeline is therefore the fallible model `pass2AuxE` /
  `iterPairsE` / `runExtractE` below.  The infallible `pass2Aux` /
  `iterPairs` / `runExtract` model the pair stream and dispatch loop as if
  record construction succeeded (the stream the rest of the code is written
  against); claims about the dispatch loop, the aggregate invariant and
  resolution soundness are conditional on a given pair stream and are
  stated over that model, while the claims that depend on whether pairs and
  finalisation actually happen are stated over the fallible model.
-/

namespace Warcex

/-- Python truthiness gate used by the code on optional string header values:
`None` and the empty string are both falsy (`if request_url and ...`). -/
def pyStr : Option String → Option String
  | some s => if s = "" then none else some s
  | none => none

/-! ### Character-list helpers (Python string primitives) -/

/-- Characters before the first occurrence of `c` (used for urlparse's
fragment split: everything after the first `#` is the fragment). -/
def takeUntilChar (c : Char) : List Char → List Char
  | [] => []
  | x :: xs => if x = c then [] else x :: takeUntilChar c xs

/-- Characters after the first occurrence of `c`, or `none` if absent. -/
def afterFirstChar (c : Char) : List Char → Option (List Char)
  | [] => none
  | x :: xs => if x = c then some xs else afterFirstChar c xs

/-- Split at the first occurrence of `c`, like Python `s.split(sep, 1)`
when the separator occurs; `none` when it does not occur. -/
def splitAtFirst (c : Char) : List Char → Option (List Char × List Char)
  | [] => none
  | x :: xs =>
    if x = c then some ([], xs)
    else (splitAtFirst c xs).map (fun p => (x :: p.1, p.2))

/-- Split on every occurrence of `c`, like Python `s.split(sep)` for a
one-character separator: always returns at least one (possibly empty) field. -/
def splitChar (c : Char) : List Char → List (List Char)
  | [] => [[]]
  | x :: xs =>
    match splitChar c xs with
    | [] => [[]]
    | f :: rest => if x = c then [] :: f :: rest else (x :: f) :: rest

/-- True when the character list contains no newline. -/
def nlFree (l : List Char) : Bool := l.all (fun ch => ch != '\n')

/-- True when the string contains no newline. -/
def nlFreeS (s : String) : Bool := nlFree s.data

/-! ### Semantics of the two regex shapes built by `_build_pattern_map` -/

/-- Tail admissible after the `.*` of `^E.*$` under `re.search`: `.` never
matches a newline and `$` matches at the end of the string or just before a
newline at the end of the string, so the remainder of the subject after the
literal must be newline-free except for at most one trailing newline. -/
def tailOk : List Char → Bool
  | [] => true
  | c :: r => if c = '\n' then r.isEmpty else tailOk r

/-- Truth of `re.compile("^" + re.escape(p) + "$").search(url)`:
the subject equals the literal, or equals it followed by one trailing
newline (the `$` anchor also matches just before a final newline). -/
def pyExactMatchL (p url : List Char) : Bool := url == p || url == p ++ ['\n']

/-- String-level version of `pyExactMatchL`. -/
def pyExactMatch (p url : String) : Bool := pyExactMatchL p.data url.data

/-- Truth of `re.compile("^" + re.escape(p) + ".*$").search(url)`:
the subject starts with the literal and the remainder satisfies `tailOk`. -/
def pyPrefixMatchL : List Char → List Char → Bool
  | [], u => tailOk u
  | _ :: _, [] => false
  | c :: p, d :: u => c == d && pyPrefixMatchL p u

/-- String-level version of `pyPrefixMatchL`. -/
def pyPrefixMatch (p url : String) : Bool := pyPrefixMatchL p.data url.data

/-- The characters escaped by `re.escape` (Python 3.7+ special set). -/
def reSpecials : List Char :=
  ['(', ')', '[', ']', '{', '}', '?', '*', '+', '-', '|', '^', '$',
   '\\', '.', '&', '~', '#', ' ', '\t', '\n', '\r', '\x0b', '\x0c']

/-- Character-list version of `re.escape`. -/
def reEscapeL : List Char → List Char
  | [] => []
  | c :: r => if c ∈ reSpecials then '\\' :: c :: reEscapeL r else c :: reEscapeL r

/-- Model of `re.escape`. -/
def reEscape (s : String) : String := ⟨reEscapeL s.data⟩

/-! ### Pattern conversion (`PluginManager._build_pattern_map`) -/

/-- Test for `url_pattern.startswith("/") and url_pattern.endswith("/")`. -/
def isRegexForm (p : String) : Bool :=
  p.data.head? == some '/' && p.data.getLast? == some '/'

/-- Python `url_pattern[1:-1]`, as applied to a slash-delimited pattern. -/
def stripSlashes (p : String) : String := ⟨p.data.tail.dropLast⟩

/-- Test for `url_pattern.endswith("*")`. -/
def isStarForm (p : String) : Bool := p.data.getLast? == some '*'

/-- Python `url_pattern[:-1]`, the stem of a trailing-wildcard pattern. -/
def starBody (p : String) : String := ⟨p.data.dropLast⟩

/-- The regex source string the code compiles for a declared pattern
(this is the identity of the compiled pattern: `re.compile` caches by
source string, and the pattern map is a dict keyed by the compiled object). -/
def convertPattern (p : String) : String :=
  if isRegexForm p then stripSlashes p
  else if isStarForm p then "^" ++ reEscape (starBody p) ++ ".*$"
  else "^" ++ reEscape p ++ "$"

/-- Semantics of the compiled matcher for a declared pattern: slash-delimited
patterns defer to the regex oracle on the enclosed source; the two
code-constructed shapes have the concrete semantics derived above. -/
def formSem (search : String → String → Bool) (p : String) (url : String) : Bool :=
  if isRegexForm p then search (stripSlashes p) url
  else if isStarForm p then pyPrefixMatch (starBody p) url
  else pyExactMatch p url

/-! ### Association lists with Python dict semantics -/

/-- Python dict assignment `m[k] = v`: replace in place if the key exists
(keys are unique by construction), otherwise append. -/
def dictUpsert {β : Type} : List (String × β) → String → β → List (String × β)
  | [], k, v => [(k, v)]
  | e :: m, k, v => if e.1 = k then (k, v) :: m else e :: dictUpsert m k v

/-- Python dict lookup / first-match association lookup. -/
def dictGet {β : Type} : List (String × β) → String → Option β
  | [], _ => none
  | e :: m, k => if e.1 = k then some e.2 else dictGet m k

/-! ### The registry and pattern map (`PluginManager`) -/

/-- A plugin as the core sees it: its stable name (`get_info().name`) and
its declared URL patterns (`get_endpoints()`). -/
structure PluginSpec where
  name : String
  endpoints : List String
  deriving DecidableEq, Repr

/-- The flattened pattern map: compiled-pattern identity (regex source
string) paired with the owning plugin's registry index. -/
abbrev PatternMap := List (String × Nat)

/-- Inner loop of `_build_pattern_map`: insert one plugin's endpoints. -/
def addEndpoints (i : Nat) : PatternMap → List String → PatternMap
  | m, [] => m
  | m, ep :: eps => addEndpoints i (dictUpsert m (convertPattern ep) i) eps

/-- Outer loop of `_build_pattern_map` over the plugin list. -/
def buildFrom : PatternMap → Nat → List PluginSpec → PatternMap
  | m, _, [] => m
  | m, i, pl :: ps => buildFrom (addEndpoints i m pl.endpoints) (i + 1) ps

/-- Model of `PluginManager._build_pattern_map`. -/
def buildPatternMap (plugins : List PluginSpec) : PatternMap := buildFrom [] 0 plugins

/-- The registry part of `PluginManager` state: the plugin list and the
pattern map rebuilt from it. -/
structure Registry where
  plugins : List PluginSpec
  patternMap : PatternMap
  deriving DecidableEq, Repr

/-- Registry as built at `PluginManager.__init__` (or after a rebuild). -/
def initRegistry (plugins : List PluginSpec) : Registry :=
  ⟨plugins, buildPatternMap plugins⟩

/-- The name of the plugin at a registry index (`plugin.get_info().name`). -/
def nameOf (reg : Registry) (pid : Nat) : String :=
  ((reg.plugins.get? pid).map PluginSpec.name).getD ""

/-- Scan of the pattern map in insertion order, returning the plugin of the
first entry whose compiled pattern search-matches the URL. -/
def scanMap (search : String → String → Bool) (url : String) : PatternMap → Option Nat
  | [] => none
  | e :: m => if search e.1 url then some e.2 else scanMap search url m

/-- Restricted scan used when `only` is given: an entry is eligible only if
its plugin has the requested name. -/
def scanRestricted (search : String → String → Bool) (reg : Registry)
    (name url : String) : PatternMap → Option Nat
  | [] => none
  | e :: m =>
    if nameOf reg e.2 = name ∧ search e.1 url = true then some e.2
    else scanRestricted search reg name url m

/-- Pure resolution part of `PluginManager.get_plugin_for_url`. -/
def resolveUrl (search : String → String → Bool) (reg : Registry) (url : String)
    (only : Option String) : Option Nat :=
  match only with
  | some name =>
    if (reg.plugins.filter (fun p => p.name == name)).isEmpty then none
    else scanRestricted search reg name url reg.patternMap
  | none => scanMap search url reg.patternMap

/-- The mutable statistics of `PluginManager`: the used set (names of plugins
that matched at least one URL) and the total match count. -/
structure RunStats where
  pluginsUsed : List String
  totalMatches : Nat
  deriving DecidableEq, Repr

/-- Python `set.add` on the used set. -/
def addUsed (l : List String) (n : String) : List String :=
  if n ∈ l then l else l ++ [n]

/-- Model of `PluginManager.get_plugin_for_url`: resolve, and on a match
record the plugin name in the used set and bump the match counter. -/
def getPluginForUrl (search : String → String → Bool) (reg : Registry)
    (st : RunStats) (url : String) (only : Option String) : Option Nat × RunStats :=
  match resolveUrl search reg url only with
  | some pid => (some pid, ⟨addUsed st.pluginsUsed (nameOf reg pid), st.totalMatches + 1⟩)
  | none => (none, st)

/-! ### WARC records and the two-pass pairer -/

/-- A capture record as the code reads it through warcio accessors: the
optional fields model `rec_headers.get_header(...)` results, `httpHeaders`
the ordered HTTP header pairs, `statusCode` the `get_statuscode()` result,
and `content` the body bytes of `content_stream().read()`. -/
structure WarcRecord where
  recType : String
  targetURI : Option String
  concurrentTo : Option String
  recordID : Option String
  warcDate : Option String
  httpHeaders : List (String × String)
  statusCode : String
  content : List Nat
  deriving DecidableEq, Repr

/-- The per-request metadata retained by pass 1, keyed by record id. -/
structure RequestInfo where
  url : String
  concurrentTo : String
  pid : Nat
  method : String
  headers : List (String × String)
  timestamp : String
  deriving DecidableEq, Repr

/-- The response data captured by pass 2 (`ResponseData(...)`). -/
structure ResponseData where
  content : List Nat
  contentType : String
  contentLength : Option Int
  statusCode : String
  deriving DecidableEq, Repr

/-- A parsed query value: scalar for a single occurrence, ordered list
otherwise (`v[0] if len(v) == 1 else v`). -/
inductive QueryVal
  | str (v : String)
  | list (vs : List String)
  deriving DecidableEq, Repr

/-- The request side of a yielded pair (`RequestData(...)`). -/
structure RequestData where
  url : String
  method : String
  headers : List (String × String)
  queryData : List (String × QueryVal)
  responseType : String
  contentLength : Option Int
  timestamp : String
  statusCode : String
  deriving DecidableEq, Repr

/-- One yielded `(request_data, response_data, plugin)` triple. -/
structure Pair where
  req : RequestData
  resp : ResponseData
  pid : Nat
  deriving DecidableEq, Repr

/-- First-match HTTP header lookup with default
(`http_headers.get_header(name, default)`; warcio's case-insensitive
comparison is abstracted by using canonical header names). -/
def httpGetD (hs : List (String × String)) (k d : String) : String :=
  (dictGet hs k).getD d

/-- The header dict comprehension of pass 1, dropping Content-Length and
Method and applying dict overwrite semantics for duplicate names. -/
def buildReqHeaders (hs : List (String × String)) : List (String × String) :=
  hs.foldl (fun m h =>
    if h.1 = "Content-Length" ∨ h.1 = "Method" then m else dictUpsert m h.1 h.2) []

/-- Decimal digit run to a number, or `none` when empty or non-digit. -/
def digitsToNat (l : List Char) : Option Nat :=
  if l = [] then none
  else if l.all Char.isDigit then
    some (l.foldl (fun a c => a * 10 + (c.toNat - 48)) 0)
  else none

/-- Model of `int(s)` under `try/except ValueError` (the whitespace and
underscore tolerance of Python `int` is not exercised by the code paths
modelled here): `some` on an optionally signed digit run, else `none`. -/
def pyIntOpt (s : String) : Option Int :=
  match s.data with
  | '-' :: rest => (digitsToNat rest).map (fun n => -(n : Int))
  | '+' :: rest => (digitsToNat rest).map (fun n => (n : Int))
  | l => (digitsToNat l).map (fun n => (n : Int))

/-- The request metadata stored by pass 1 for a matched request. -/
def mkReqInfo (rec : WarcRecord) (url conc : String) (pid : Nat) : RequestInfo :=
  { url := url
    concurrentTo := conc
    pid := pid
    method := httpGetD rec.httpHeaders "Method" "GET"
    headers := buildReqHeaders rec.httpHeaders
    timestamp := rec.warcDate.getD "" }

/-- Pass-1 retention map type: record id to retained request metadata. -/
abbrev ReqMap := List (String × RequestInfo)

/-- Pass-2 response map type: record id to captured response data. -/
abbrev RespMap := List (String × ResponseData)

/-- Pass 1 of `iter_request_response_pairs`: scan records; for each request
with truthy URL, concurrent-to and record id whose URL resolves to a plugin,
retain its metadata keyed by record id; unmatched requests are not stored. -/
def pass1Aux (search : String → String → Bool) (reg : Registry) (only : Option String) :
    RunStats → ReqMap → List WarcRecord → RunStats × ReqMap
  | st, m, [] => (st, m)
  | st, m, rec :: rs =>
    if rec.recType = "request" then
      match pyStr rec.targetURI, pyStr rec.concurrentTo, pyStr rec.recordID with
      | some url, some conc, some rid =>
        match getPluginForUrl search reg st url only with
        | (some pid, st') =>
          pass1Aux search reg only st' (dictUpsert m rid (mkReqInfo rec url conc pid)) rs
        | (none, st') => pass1Aux search reg only st' m rs
      | _, _, _ => pass1Aux search reg only st m rs
    else pass1Aux search reg only st m rs

/-- The `ResponseData` value described by the arguments of the
`ResponseData(...)` call in pass 2.  In the real program this constructor
call raises `TypeError` (`ResponseData` is a `typing.Protocol`): the
fallible `pass2AuxE` below models that; this record captures the value the
surrounding code is written to produce. -/
def mkRespData (rec : WarcRecord) : ResponseData :=
  { content := rec.content
    contentType := httpGetD rec.httpHeaders "Content-Type" ""
    contentLength := pyIntOpt (httpGetD rec.httpHeaders "Content-Length" "0")
    statusCode := rec.statusCode }

/-- Pass 2 of `iter_request_response_pairs` with record construction
assumed to succeed: capture responses whose record id is truthy and appears
among the retained concurrent-to ids.  This is the hypothetical stream
semantics; the faithful fallible version, in which the construction raises,
is `pass2AuxE`. -/
def pass2Aux (concIds : List String) : RespMap → List WarcRecord → RespMap
  | m, [] => m
  | m, rec :: rs =>
    if rec.recType = "response" then
      match pyStr rec.recordID with
      | some rid =>
        if rid ∈ concIds then pass2Aux concIds (dictUpsert m rid (mkRespData rec)) rs
        else pass2Aux concIds m rs
      | none => pass2Aux concIds m rs
    else pass2Aux concIds m rs

/-! ### Query string parsing (`urlparse` + `parse_qs`) -/

/-- Python `s.replace('+', ' ')` for the query decoding step. -/
def plusToSpace (l : List Char) : List Char :=
  l.map (fun c => if c = '+' then ' ' else c)

/-- The field decoding of `parse_qsl`: plus-to-space then percent-decoding
through the `unquote` oracle. -/
def qDecode (uq : String → String) (l : List Char) : String := uq ⟨plusToSpace l⟩

/-- Model of `urllib.parse.parse_qsl(qs)` at its defaults
(`keep_blank_values=False`, separator `&`): split on `&`, skip empty
fields, split each field at the first `=`, skip fields without `=` and
fields whose value part is empty, and decode name and value. -/
def parseQsl (uq : String → String) (qs : String) : List (String × String) :=
  (splitChar '&' qs.data).filterMap (fun f =>
    if f = [] then none
    else
      match splitAtFirst '=' f with
      | none => none
      | some (n, v) => if v = [] then none else some (qDecode uq n, qDecode uq v))

/-- Model of `urllib.parse.parse_qs(qs)`: group the `parse_qsl` pairs into a
dict of ordered value lists (first-occurrence key order, field-order values). -/
def parseQs (uq : String → String) (qs : String) : List (String × List String) :=
  (parseQsl uq qs).foldl
    (fun m p => dictUpsert m p.1 ((dictGet m p.1).getD [] ++ [p.2])) []

/-- The scalar-or-list collapse applied by the processor:
`{k: v[0] if len(v) == 1 else v for k, v in query_params.items()}`. -/
def toQueryData (m : List (String × List String)) : List (String × QueryVal) :=
  m.map (fun e => (e.1, match e.2 with | [v] => QueryVal.str v | l => QueryVal.list l))

/-- The query component of `urlparse(url)`: strip the fragment at the first
`#`, then take everything after the first `?` (empty when there is none). -/
def urlQuery (url : String) : String :=
  match afterFirstChar '?' (takeUntilChar '#' url.data) with
  | some r => ⟨r⟩
  | none => ""

/-- The yielded pair assembled for a retained request with a found response. -/
def mkPair (uq : String → String) (info : RequestInfo) (rsp : ResponseData) : Pair :=
  { req :=
      { url := info.url
        method := info.method
        headers := info.headers
        queryData := toQueryData (parseQs uq (urlQuery info.url))
        responseType := rsp.contentType
        contentLength := rsp.contentLength
        timestamp := info.timestamp
        statusCode := rsp.statusCode }
    resp := rsp
    pid := info.pid }

/-- The yield loop after the two passes, in retention (insertion) order;
requests with no found response are dropped silently. -/
def yieldAux (uq : String → String) (rm : RespMap) : ReqMap → List Pair
  | [] => []
  | (_, info) :: rest =>
    match dictGet rm info.concurrentTo with
    | some rsp => mkPair uq info rsp :: yieldAux uq rm rest
    | none => yieldAux uq rm rest

/-- The Python stdlib primitives abstracted as oracles: regex search and
percent-decoding. -/
structure PyOracles where
  search : String → String → Bool
  unquote : String → String

/-- Iteration over all WARC files: run pass 1; when nothing was retained,
skip pass 2 and yield nothing for this file (`continue`), else run pass 2
over the retained concurrent-to ids and append the yielded pairs. -/
def iterAux (os : PyOracles) (reg : Registry) (only : Option String) :
    RunStats → List Pair → List (List WarcRecord) → RunStats × List Pair
  | st, acc, [] => (st, acc)
  | st, acc, warc :: ws =>
    let p1 := pass1Aux os.search reg only st [] warc
    if p1.2.isEmpty then iterAux os reg only p1.1 acc ws
    else
      let rm := pass2Aux (p1.2.map (fun e => e.2.concurrentTo)) [] warc
      iterAux os reg only p1.1 (acc ++ yieldAux os.unquote rm p1.2) ws

/-- Statistics state as freshly constructed in `PluginManager.__init__`. -/
def initStats : RunStats := ⟨[], 0⟩

/-- Model of `WACZProcessor.iter_request_response_pairs` over the parsed
contents of the archive's WARC members, threading the manager statistics,
with record construction assumed to succeed (the fallible version is
`iterPairsE`). -/
def iterPairs (os : PyOracles) (reg : Registry) (only : Option String)
    (warcs : List (List WarcRecord)) : RunStats × List Pair :=
  iterAux os reg only initStats [] warcs

/-! ### The extraction loop and finalisation -/

/-- Observable events of a run: an extract call that returned, an extract
call that raised (caught and logged), and a finalise call. -/
inductive Event
  | extractCall (pid : Nat)
  | extractError (pid : Nat)
  | finalise (pid : Nat)
  deriving DecidableEq, Repr

/-- The extraction loop of `WACZProcessor.extract`: each pair is dispatched
to its plugin; a raising call is caught and increments nothing; a returning
call increments the plugin's per-name count and the total. -/
def extractLoopAux (fails : Nat → Pair → Bool) (reg : Registry) :
    Nat → List (String × Nat) → List Event → List Pair → Nat × List (String × Nat) × List Event
  | t, c, tr, [] => (t, c, tr)
  | t, c, tr, pr :: ps =>
    if fails pr.pid pr then
      extractLoopAux fails reg t c (tr ++ [Event.extractError pr.pid]) ps
    else
      extractLoopAux fails reg (t + 1)
        (dictUpsert c (nameOf reg pr.pid) ((dictGet c (nameOf reg pr.pid)).getD 0 + 1))
        (tr ++ [Event.extractCall pr.pid]) ps

/-- Model of `PluginManager.finalise_all_plugins`: walk the plugin list in
registry order and call finalise on each plugin whose name is in the used
set (a raising finalise is caught, so the call event happens either way). -/
def finaliseEventsFrom (used : List String) : Nat → List PluginSpec → List Event
  | _, [] => []
  | i, pl :: ps =>
    (if pl.name ∈ used then [Event.finalise i] else []) ++ finaliseEventsFrom used (i + 1) ps

/-- The aggregate result of `WACZProcessor.extract`. -/
structure ExtractionResult where
  totalProcessed : Nat
  pluginCounts : List (String × Nat)
  deriving DecidableEq, Repr

/-- Model of `WACZProcessor.extract` over the hypothetical pair stream
(record construction assumed to succeed; the fallible version is
`runExtractE`): iterate the pairs, run the extraction loop, then finalise
all used plugins, returning the aggregate result, the final manager
statistics, and the full event trace. -/
def runExtract (os : PyOracles) (fails : Nat → Pair → Bool) (reg : Registry)
    (only : Option String) (warcs : List (List WarcRecord)) :
    ExtractionResult × RunStats × List Event :=
  let ip := iterPairs os reg only warcs
  let el := extractLoopAux fails reg 0 [] [] ip.2
  (⟨el.1, el.2.1⟩, ip.1, el.2.2 ++ finaliseEventsFrom ip.1.pluginsUsed 0 reg.plugins)

/-- The aggregate result component of a run. -/
def runResult (os : PyOracles) (fails : Nat → Pair → Bool) (reg : Registry)
    (only : Option String) (warcs : List (List WarcRecord)) : ExtractionResult :=
  (runExtract os fails reg only warcs).1

/-- The final manager statistics of a run. -/
def runStatsOf (os : PyOracles) (fails : Nat → Pair → Bool) (reg : Registry)
    (only : Option String) (warcs : List (List WarcRecord)) : RunStats :=
  (runExtract os fails reg only warcs).2.1

/-- The event trace of a run. -/
def runTrace (os : PyOracles) (fails : Nat → Pair → Bool) (reg : Registry)
    (only : Option String) (warcs : List (List WarcRecord)) : List Event :=
  (runExtract os fails reg only warcs).2.2

/-! ### Archive member materialisation (`WACZProcessor._extract_file`) -/

/-- The materialisation-relevant processor state: the scratch directory,
the zip namelist, and the set of already-extracted member paths. -/
structure ExtractState where
  tempDir : String
  fileList : List String
  extractedFiles : List String
  deriving DecidableEq, Repr

/-- Model of `os.path.join(a, b)` for the cases arising here: an absolute
second component replaces the first, otherwise they are joined with `/`. -/
def ojoin (a b : String) : String :=
  if b.data.head? == some '/' then b else a ++ "/" ++ b

/-- Model of `WACZProcessor._extract_file`: an already-extracted member
returns its cached scratch path without re-extracting; an unknown member is
an error; otherwise the member is copied out (the returned flag records
whether an extraction was performed) and remembered. -/
def extractFile (st : ExtractState) (p : String) :
    Except String (ExtractState × String × Bool) :=
  if p ∈ st.extractedFiles then Except.ok (st, ojoin st.tempDir p, false)
  else if p ∉ st.fileList then
    Except.error ("File " ++ p ++ " not found in WACZ archive")
  else
    Except.ok ({ st with extractedFiles := p :: st.extractedFiles },
               ojoin st.tempDir p, true)

/-! ### Processor opening and plugin sideloading -/

/-- What the file system holds at a path, as far as `__init__` observes it:
nothing, a readable zip with a member name list, or an unreadable zip
(raising `zipfile.BadZipFile`). -/
inductive ZipContent
  | valid (names : List String)
  | bad
  deriving DecidableEq, Repr

/-- A candidate plugin class found in a sideloaded module: its name and the
result of instantiating it (`none` models a raising constructor). -/
structure PluginClass where
  className : String
  construct : Option PluginSpec
  deriving DecidableEq, Repr

/-- A successfully imported module: its WACZPlugin subclasses in
`inspect.getmembers` order. -/
structure PluginModule where
  classes : List PluginClass
  deriving DecidableEq, Repr

/-- The failure modes of `sideload_plugin`: missing file, import failure,
no matching plugin class, and a raising constructor. -/
inductive LoadError
  | fileNotFound
  | importError
  | noPluginFound
  | constructError
  deriving DecidableEq, Repr

/-- Model of `PluginManager.sideload_plugin`: check existence, import the
module, instantiate the first matching class, append it to the registry and
rebuild the pattern map; every failure raises before any registry mutation. -/
def sideloadPlugin (fileExists : String → Bool) (loadModule : String → Option PluginModule)
    (reg : Registry) (file : String) : Registry × Except LoadError String :=
  if fileExists file = false then (reg, Except.error LoadError.fileNotFound)
  else
    match loadModule file with
    | none => (reg, Except.error LoadError.importError)
    | some md =>
      match md.classes with
      | [] => (reg, Except.error LoadError.noPluginFound)
      | c :: _ =>
        match c.construct with
        | none => (reg, Except.error LoadError.constructError)
        | some spec =>
          let plugins' := reg.plugins ++ [spec]
          ({ plugins := plugins', patternMap := buildPatternMap plugins' },
           Except.ok spec.name)

/-- The failure modes of `WACZProcessor.__init__`: missing archive, invalid
zip, and a propagated sideload failure. -/
inductive InitError
  | notFound
  | invalidZip
  | pluginLoad (e : LoadError)
  deriving DecidableEq, Repr

/-- The sequential sideloading of `manual_plugins` in `__init__`, aborting
on (re-raising) the first failure. -/
def sideloadAll (fileExists : String → Bool) (loadModule : String → Option PluginModule) :
    Registry → List String → Except LoadError Registry
  | reg, [] => Except.ok reg
  | reg, f :: fs =>
    match sideloadPlugin fileExists loadModule reg f with
    | (_, Except.error e) => Except.error e
    | (reg', Except.ok _) => sideloadAll fileExists loadModule reg' fs

/-- Model of `WACZProcessor.__init__`: build the registry from the built-in
plugins, fail with the not-found error when nothing exists at the path,
fail with the invalid-container error when the zip directory cannot be
read, read the member list, then sideload the manual plugins. -/
def initProcessor (fs : String → Option ZipContent) (fileExists : String → Bool)
    (loadModule : String → Option PluginModule) (builtins : List PluginSpec)
    (path : String) (manual : List String) : Except InitError (Registry × List String) :=
  let reg0 := initRegistry builtins
  match fs path with
  | none => Except.error InitError.notFound
  | some ZipContent.bad => Except.error InitError.invalidZip
  | some (ZipContent.valid names) =>
    match sideloadAll fileExists loadModule reg0 manual with
    | Except.error e => Except.error (InitError.pluginLoad e)
    | Except.ok reg => Except.ok (reg, names)

/-! ### Derived notions used in theorem statements -/

/-- The event emitted by the extraction loop for one pair: a successful
call or a caught failure, always for the pair's resolved plugin. -/
def stepEvent (fails : Nat → Pair → Bool) (pr : Pair) : Event :=
  if fails pr.pid pr then Event.extractError pr.pid else Event.extractCall pr.pid

/-- Whether the extract call for this pair completes without raising. -/
def succPair (fails : Nat → Pair → Bool) (pr : Pair) : Bool := !(fails pr.pid pr)

/-- Sum of the per-plugin counts of an aggregate result. -/
def sumCounts (c : List (String × Nat)) : Nat := (c.map (fun e => e.2)).sum

/-- Whether an event is a finalise call. -/
def isFinEvent : Event → Bool
  | Event.finalise _ => true
  | _ => false

/-- Whether an event is an extract call (successful or raising) for `pid`. -/
def isExtractFor (pid : Nat) : Event → Bool
  | Event.extractCall p => p == pid
  | Event.extractError p => p == pid
  | Event.finalise _ => false

/-- A plugin list's endpoints all satisfy the oracle-faithfulness link:
searching the compiled source behaves as the concrete form semantics.
This is the (true of Python's `re`) bridge between the abstract regex
oracle and the concrete semantics of the code-constructed regex shapes. -/
def FaithfulFor (search : String → String → Bool) (plugins : List PluginSpec) : Prop :=
  ∀ pid pl, plugins.get? pid = some pl →
    ∀ ep ∈ pl.endpoints, ∀ url, search (convertPattern ep) url = formSem search ep url

/-- Whether some declared pattern of the plugin search-matches the URL
(matching taken on the compiled regex source, as the code does). -/
def pluginMatches (search : String → String → Bool) (plugins : List PluginSpec)
    (i : Nat) (url : String) : Prop :=
  ∃ pl, plugins.get? i = some pl ∧
    ∃ ep ∈ pl.endpoints, search (convertPattern ep) url = true

/-- Boolean form of a plugin's patterns matching a URL. -/
def epMatch (search : String → String → Bool) (url : String) (pl : PluginSpec) : Bool :=
  pl.endpoints.any (fun ep => search (convertPattern ep) url)

/-- Flat pattern list of one plugin (keys with owning index, in order). -/
def flatOne (i : Nat) (eps : List String) : PatternMap :=
  eps.map (fun ep => (convertPattern ep, i))

/-- Flat pattern list of a plugin suffix starting at index `i`, in
registration-then-declaration order, without dict collision handling. -/
def flatFrom : Nat → List PluginSpec → PatternMap
  | _, [] => []
  | i, pl :: ps => flatOne i pl.endpoints ++ flatFrom (i + 1) ps

/-- All compiled pattern keys of a plugin list, in declaration order. -/
def allKeys (plugins : List PluginSpec) : List String :=
  (flatFrom 0 plugins).map (fun e => e.1)

/-- The raw key=value fields of a query string, in order, without decoding:
the occurrences of keys the specification counts. -/
def rawFields (qs : String) : List (String × String) :=
  (splitChar '&' qs.data).filterMap (fun f =>
    (splitAtFirst '=' f).map (fun p => (String.mk p.1, String.mk p.2)))

/-- The values carried by the fields of a query string with the given key,
in field (URL) order. -/
def fieldValues (qs : String) (k : String) : List String :=
  ((rawFields qs).filter (fun p => p.1 == k)).map (fun p => p.2)

/-- A query string is plain when every `&`-field is `key=value` with a
nonempty value and neither side contains `%` or `+` (so decoding is the
identity and no field is dropped by `parse_qs`'s blank-value filter). -/
def plainQuery (qs : String) : Bool :=
  (splitChar '&' qs.data).all (fun f =>
    match splitAtFirst '=' f with
    | none => false
    | some (n, v) =>
      !v.isEmpty && (n ++ v).all (fun c => c != '%' && c != '+'))

/-! ### Concrete fixtures for witnesses and counterexamples -/

/-- Concrete regex oracle behaving correctly on the single compiled source
built from the pattern list `["x*"]` (and rejecting all other sources). -/
def searchStarX : String → String → Bool :=
  fun k u => k == "^x.*$" && pyPrefixMatch "x" u

/-- Concrete regex oracle behaving correctly on the compiled source of the
exact pattern `"a"`. -/
def searchExactA : String → String → Bool :=
  fun k u => k == "^a$" && pyExactMatch "a" u

/-- Regex oracle matching nothing (for runs where no pattern may match). -/
def searchNever : String → String → Bool := fun _ _ => false

/-- Oracles for fixtures routed through the prefix pattern `"x*"`. -/
def oraclesX : PyOracles := ⟨searchStarX, id⟩

/-- Concrete regex oracle behaving correctly on the two compiled sources
built from the patterns `"a*"` and `"b*"`. -/
def searchAB : String → String → Bool := fun k u =>
  (k == "^a.*$" && pyPrefixMatch "a" u) || (k == "^b.*$" && pyPrefixMatch "b" u)

/-- Oracles for the two-plugin fixture with patterns `"a*"` and `"b*"`. -/
def oraclesAB : PyOracles := ⟨searchAB, id⟩

/-- Oracles under which no URL resolves to any handler. -/
def oraclesNever : PyOracles := ⟨searchNever, id⟩

/-- Failure oracle for runs in which no extract call raises. -/
def noFail : Nat → Pair → Bool := fun _ _ => false

/-- A request capture record with the given target URI, concurrent-to id
and record id. -/
def mkRequestRec (url conc rid : String) : WarcRecord :=
  { recType := "request", targetURI := some url, concurrentTo := some conc,
    recordID := some rid, warcDate := some "2024-01-01T00:00:00Z",
    httpHeaders := [], statusCode := "", content := [] }

/-- A response capture record with the given record id. -/
def mkResponseRec (rid : String) : WarcRecord :=
  { recType := "response", targetURI := none, concurrentTo := none,
    recordID := some rid, warcDate := none,
    httpHeaders := [("Content-Type", "application/json"), ("Content-Length", "2")],
    statusCode := "200", content := [123, 125] }

/-! ### The faithful, fallible pipeline

The real pass 2 cannot build a `ResponseData`: `warcex/data.py` defines it
as a `typing.Protocol`, and Python raises `TypeError` when a Protocol class
is instantiated.  The definitions below model `iter_request_response_pairs`
and `extract` with that error path. -/

/-- The runtime error raised by pass 2's record construction:
`ResponseData` is a `typing.Protocol`, and instantiating a Protocol class
raises `TypeError`. -/
inductive PyErr
  | typeError
  deriving DecidableEq, Repr

instance {α β : Type} [DecidableEq α] [DecidableEq β] : DecidableEq (Except α β) :=
  fun a b =>
    match a, b with
    | Except.ok x, Except.ok y => decidable_of_iff (x = y) (by simp)
    | Except.ok _, Except.error _ => isFalse (by simp)
    | Except.error _, Except.ok _ => isFalse (by simp)
    | Except.error e, Except.error f => decidable_of_iff (e = f) (by simp)

/-- Faithful pass 2 of `iter_request_response_pairs`: when the loop reaches
the first response record whose truthy id is among the retained
concurrent-to ids, the code executes `ResponseData(content=..., ...)`,
which raises `TypeError`; the exception escapes the generator, so the map
is never populated. -/
def pass2AuxE (concIds : List String) : RespMap → List WarcRecord → Except PyErr RespMap
  | m, [] => Except.ok m
  | m, rec :: rs =>
    if rec.recType = "response" then
      match pyStr rec.recordID with
      | some rid =>
        if rid ∈ concIds then Except.error PyErr.typeError
        else pass2AuxE concIds m rs
      | none => pass2AuxE concIds m rs
    else pass2AuxE concIds m rs

/-- Faithful iteration over the WARC members: nothing catches the pass-2
`TypeError` inside `iter_request_response_pairs`, so it aborts the whole
iteration at the first WARC member holding a needed response. -/
def iterAuxE (os : PyOracles) (reg : Registry) (only : Option String) :
    RunStats → List Pair → List (List WarcRecord) → Except PyErr (RunStats × List Pair)
  | st, acc, [] => Except.ok (st, acc)
  | st, acc, warc :: ws =>
    let p1 := pass1Aux os.search reg only st [] warc
    if p1.2.isEmpty then iterAuxE os reg only p1.1 acc ws
    else
      match pass2AuxE (p1.2.map (fun e => e.2.concurrentTo)) [] warc with
      | Except.error e => Except.error e
      | Except.ok rm => iterAuxE os reg only p1.1 (acc ++ yieldAux os.unquote rm p1.2) ws

/-- Faithful `iter_request_response_pairs`: the completed (necessarily
empty) pair stream with the final statistics, or the aborting error. -/
def iterPairsE (os : PyOracles) (reg : Registry) (only : Option String)
    (warcs : List (List WarcRecord)) : Except PyErr (RunStats × List Pair) :=
  iterAuxE os reg only initStats [] warcs

/-- Faithful `WACZProcessor.extract`: the try in the dispatch loop wraps
only `plugin.extract`, not the generator, so an aborting iteration aborts
the run before any finalisation; a completing iteration proceeds to the
extraction loop and `finalise_all_plugins`.  The generator's laziness is
observationally irrelevant here: a completing iteration yields no pairs at
all (pass 2 never populates the response map), and an aborting one raises
before its first yield, so no extract call precedes the abort. -/
def runExtractE (os : PyOracles) (fails : Nat → Pair → Bool) (reg : Registry)
    (only : Option String) (warcs : List (List WarcRecord)) :
    Except PyErr (ExtractionResult × RunStats × List Event) :=
  match iterPairsE os reg only warcs with
  | Except.error e => Except.error e
  | Except.ok (st', pairs) =>
    let el := extractLoopAux fails reg 0 [] [] pairs
    Except.ok (⟨el.1, el.2.1⟩, st',
      el.2.2 ++ finaliseEventsFrom st'.pluginsUsed 0 reg.plugins)

/-! ## Helper lemmas -/

theorem dictGet_upsert_self {β : Type} (m : List (String × β)) (k : String) (v : β) :
    dictGet (dictUpsert m k v) k = some v := by
  induction m with
  | nil => simp [dictUpsert, dictGet]
  | cons e m ih =>
    by_cases h : e.1 = k
    · simp [dictUpsert, dictGet, h]
    · simp [dictUpsert, dictGet, h, ih]

theorem dictGet_upsert_ne {β : Type} (m : List (String × β)) (k k' : String) (v : β)
    (h : k' ≠ k) : dictGet (dictUpsert m k v) k' = dictGet m k' := by
  induction m with
  | nil => simp [dictUpsert, dictGet, h.symm]
  | cons e m ih =>
    by_cases he : e.1 = k
    · simp [dictUpsert, dictGet, he, h.symm]
    · simp [dictUpsert, dictGet, he, ih]

theorem mem_dictUpsert {β : Type} (m : List (String × β)) (k : String) (v : β)
    (e : String × β) (h : e ∈ dictUpsert m k v) : e ∈ m ∨ e = (k, v) := by
  induction m with
  | nil => simp [dictUpsert] at h; simp [h]
  | cons f m ih =>
    by_cases hf : f.1 = k
    · simp [dictUpsert, hf] at h
      rcases h with h | h
      · right; simp [h]
      · left; simp [h]
    · simp [dictUpsert, hf] at h
      rcases h with h | h
      · left; simp [h]
      · rcases ih h with h' | h'
        · left; simp [h']
        · right; exact h'

theorem sumCounts_cons (x : String × Nat) (l : List (String × Nat)) :
    sumCounts (x :: l) = x.2 + sumCounts l := by
  simp [sumCounts]

theorem sumCounts_dictIncr (c : List (String × Nat)) (n : String) :
    sumCounts (dictUpsert c n ((dictGet c n).getD 0 + 1)) = sumCounts c + 1 := by
  induction c with
  | nil => simp [dictUpsert, dictGet, sumCounts]
  | cons e m ih =>
    by_cases h : e.1 = n
    · simp [dictUpsert, dictGet, h, sumCounts]
      omega
    · have h1 : dictUpsert (e :: m) n ((dictGet (e :: m) n).getD 0 + 1) =
          e :: dictUpsert m n ((dictGet m n).getD 0 + 1) := by
        simp [dictUpsert, dictGet, h]
      rw [h1, sumCounts_cons, sumCounts_cons, ih]
      omega

/-! ## C9: materialisation is idempotent -/

/-- Claim C9: once a member has been materialised, a second materialize
call with the same member path returns the same scratch path, performs no
further extraction, and leaves the cached state unchanged. -/
theorem c9_materialize_idempotent (st : ExtractState) (p : String)
    (st1 : ExtractState) (path1 : String) (b : Bool)
    (h : extractFile st p = Except.ok (st1, path1, b)) :
    extractFile st1 p = Except.ok (st1, path1, false) := by
  unfold extractFile at h ⊢
  by_cases h1 : p ∈ st.extractedFiles
  · simp only [h1, if_true, Except.ok.injEq, Prod.mk.injEq] at h
    obtain ⟨h2, h3, _⟩ := h
    subst h2; subst h3
    simp [h1]
  · by_cases h2 : p ∈ st.fileList
    · rw [if_neg h1, if_neg (not_not_intro h2)] at h
      simp only [Except.ok.injEq, Prod.mk.injEq] at h
      obtain ⟨ha, hb, _⟩ := h
      subst ha; subst hb
      simp [List.mem_cons]
    · simp [h1, h2] at h

/-- Witness for C9 at a concrete archive member. -/
theorem c9_materialize_idempotent_witness :
    extractFile ⟨"/tmp/wacz", ["archive/data.warc"], ["archive/data.warc"]⟩
        "archive/data.warc" =
      Except.ok (⟨"/tmp/wacz", ["archive/data.warc"], ["archive/data.warc"]⟩,
                 "/tmp/wacz/archive/data.warc", false) :=
  c9_materialize_idempotent ⟨"/tmp/wacz", ["archive/data.warc"], []⟩ "archive/data.warc"
    ⟨"/tmp/wacz", ["archive/data.warc"], ["archive/data.warc"]⟩
    "/tmp/wacz/archive/data.warc" true (by rfl)

/-! ## C7: sideload failure is atomic -/

/-- Claim C7: a sideload call that fails (missing target, no matching
implementation, raising constructor) raises a load error and leaves the
registry — plugin list and pattern map — exactly as before. -/
theorem c7_sideload_atomic (fe : String → Bool) (lm : String → Option PluginModule)
    (reg : Registry) (file : String) :
    (∀ e, (sideloadPlugin fe lm reg file).2 = Except.error e →
        (sideloadPlugin fe lm reg file).1 = reg) ∧
    (fe file = false →
        sideloadPlugin fe lm reg file = (reg, Except.error LoadError.fileNotFound)) ∧
    (fe file = true → lm file = none →
        sideloadPlugin fe lm reg file = (reg, Except.error LoadError.importError)) ∧
    (∀ md, fe file = true → lm file = some md → md.classes = [] →
        sideloadPlugin fe lm reg file = (reg, Except.error LoadError.noPluginFound)) ∧
    (∀ md c cs, fe file = true → lm file = some md → md.classes = c :: cs →
        c.construct = none →
        sideloadPlugin fe lm reg file = (reg, Except.error LoadError.constructError)) := by
  refine ⟨?_, ?_, ?_, ?_, ?_⟩
  · intro e he
    rcases hfe : fe file
    · simp [sideloadPlugin, hfe]
    · rcases hlm : lm file with _ | md
      · simp [sideloadPlugin, hfe, hlm]
      · rcases hcl : md.classes with _ | ⟨c, cs⟩
        · simp [sideloadPlugin, hfe, hlm, hcl]
        · rcases hco : c.construct with _ | spec
          · simp [sideloadPlugin, hfe, hlm, hcl, hco]
          · exfalso
            simp [sideloadPlugin, hfe, hlm, hcl, hco] at he
  · intro h
    simp [sideloadPlugin, h]
  · intro h1 h2
    simp [sideloadPlugin, h1, h2]
  · intro md h1 h2 h3
    simp [sideloadPlugin, h1, h2, h3]
  · intro md c cs h1 h2 h3 h4
    simp [sideloadPlugin, h1, h2, h3, h4]

/-- Witness for C7: a missing sideload target errors and leaves a concrete
registry untouched. -/
theorem c7_sideload_atomic_witness :
    sideloadPlugin (fun _ => false) (fun _ => none)
        (initRegistry [⟨"P", ["x*"]⟩]) "extra.py" =
      (initRegistry [⟨"P", ["x*"]⟩], Except.error LoadError.fileNotFound) :=
  (c7_sideload_atomic (fun _ => false) (fun _ => none)
      (initRegistry [⟨"P", ["x*"]⟩]) "extra.py").2.1 rfl

/-! ## C6: processor opening errors -/

/-- Claim C6: opening fails with the not-found error exactly when nothing
exists at the path, and with the invalid-container error exactly when the
file exists but its zip directory cannot be read; both checks precede all
record processing, so they occur before any pair is produced. -/
theorem c6_open_errors (fs : String → Option ZipContent) (fe : String → Bool)
    (lm : String → Option PluginModule) (builtins : List PluginSpec)
    (path : String) (manual : List String) :
    (initProcessor fs fe lm builtins path manual = Except.error InitError.notFound ↔
        fs path = none) ∧
    (initProcessor fs fe lm builtins path manual = Except.error InitError.invalidZip ↔
        fs path = some ZipContent.bad) := by
  unfold initProcessor
  rcases h : fs path with _ | c
  · simp
  · cases c with
    | valid names =>
      rcases hs : sideloadAll fe lm (initRegistry builtins) manual with e | reg <;> simp [hs]
    | bad => simp

/-! ## Extraction-loop lemmas (for C4 and C10) -/

theorem extractLoop_trace (fails : Nat → Pair → Bool) (reg : Registry) :
    ∀ (ps : List Pair) (t : Nat) (c : List (String × Nat)) (tr : List Event),
    (extractLoopAux fails reg t c tr ps).2.2 = tr ++ ps.map (stepEvent fails) := by
  intro ps
  induction ps with
  | nil => intro t c tr; simp [extractLoopAux]
  | cons pr ps ih =>
    intro t c tr
    by_cases h : fails pr.pid pr
    · simp [extractLoopAux, h, stepEvent, ih]
    · simp [extractLoopAux, h, stepEvent, ih]

theorem extractLoop_total (fails : Nat → Pair → Bool) (reg : Registry) :
    ∀ (ps : List Pair) (t : Nat) (c : List (String × Nat)) (tr : List Event),
    (extractLoopAux fails reg t c tr ps).1 = t + (ps.filter (succPair fails)).length := by
  intro ps
  induction ps with
  | nil => intro t c tr; simp [extractLoopAux]
  | cons pr ps ih =>
    intro t c tr
    by_cases h : fails pr.pid pr
    · simp [extractLoopAux, h, succPair, ih]
    · simp only [extractLoopAux, h, if_false, ite_false, Bool.false_eq_true]
      rw [ih]
      have hs : succPair fails pr = true := by simp [succPair, h]
      simp [hs]
      omega

theorem extractLoop_counts (fails : Nat → Pair → Bool) (reg : Registry) :
    ∀ (ps : List Pair) (t : Nat) (c : List (String × Nat)) (tr : List Event) (n : String),
    (dictGet (extractLoopAux fails reg t c tr ps).2.1 n).getD 0 =
      (dictGet c n).getD 0 +
        ((ps.filter (succPair fails)).filter (fun pr => nameOf reg pr.pid == n)).length := by
  intro ps
  induction ps with
  | nil => intro t c tr n; simp [extractLoopAux]
  | cons pr ps ih =>
    intro t c tr n
    by_cases h : fails pr.pid pr
    · have hs : succPair fails pr = false := by simp [succPair, h]
      simp [extractLoopAux, h, hs, ih]
    · have hs : succPair fails pr = true := by simp [succPair, h]
      simp only [extractLoopAux, h, if_false, ite_false, Bool.false_eq_true]
      rw [ih]
      by_cases hn : nameOf reg pr.pid = n
      · rw [← hn, dictGet_upsert_self]
        simp [hs, hn]
        omega
      · rw [dictGet_upsert_ne _ _ _ _ (fun hh => hn hh.symm)]
        have : (nameOf reg pr.pid == n) = false := by simp [hn]
        simp [hs, this]

theorem finaliseEvents_all_fin (used : List String) :
    ∀ (ps : List PluginSpec) (i : Nat), ∀ e ∈ finaliseEventsFrom used i ps, isFinEvent e = true := by
  intro ps
  induction ps with
  | nil => intro i e he; simp [finaliseEventsFrom] at he
  | cons pl ps ih =>
    intro i e he
    simp only [finaliseEventsFrom, List.mem_append] at he
    rcases he with he | he
    · by_cases h : pl.name ∈ used
      · simp [h] at he
        simp [he, isFinEvent]
      · simp [h] at he
    · exact ih (i + 1) e he

/-! ## C4: partial-failure isolation in the extraction loop -/

/-- Claim C4: a raising extract call is caught: every pair of the stream
still produces exactly one dispatch event in stream order (so later pairs,
for the same or other handlers, are all delivered), a raising call
increments nothing, and the aggregate counts exactly the extract calls
that completed without raising, totalled and per handler name. -/
theorem c4_partial_failure_isolation (os : PyOracles) (fails : Nat → Pair → Bool)
    (reg : Registry) (only : Option String) (warcs : List (List WarcRecord)) :
    (∃ finTr, runTrace os fails reg only warcs =
        ((iterPairs os reg only warcs).2.map (stepEvent fails)) ++ finTr ∧
        ∀ e ∈ finTr, isFinEvent e = true) ∧
    (runResult os fails reg only warcs).totalProcessed =
      ((iterPairs os reg only warcs).2.filter (succPair fails)).length ∧
    (∀ n : String,
      (dictGet (runResult os fails reg only warcs).pluginCounts n).getD 0 =
        (((iterPairs os reg only warcs).2.filter (succPair fails)).filter
            (fun pr => nameOf reg pr.pid == n)).length) := by
  refine ⟨⟨finaliseEventsFrom (iterPairs os reg only warcs).1.pluginsUsed 0 reg.plugins,
      ?_, ?_⟩, ?_, ?_⟩
  · show (runExtract os fails reg only warcs).2.2 = _
    unfold runExtract
    dsimp only
    rw [extractLoop_trace]
    simp
  · intro e he
    exact finaliseEvents_all_fin _ reg.plugins 0 e he
  · show (runExtract os fails reg only warcs).1.totalProcessed = _
    unfold runExtract
    dsimp only
    rw [extractLoop_total]
    simp
  · intro n
    show (dictGet (runExtract os fails reg only warcs).1.pluginCounts n).getD 0 = _
    unfold runExtract
    dsimp only
    rw [extractLoop_counts]
    simp [dictGet]

/-! ## C10: aggregate result invariant -/

theorem extractLoop_inv (fails : Nat → Pair → Bool) (reg : Registry) :
    ∀ (ps : List Pair) (t : Nat) (c : List (String × Nat)) (tr : List Event),
    t = sumCounts c → (∀ e ∈ c, 1 ≤ e.2) →
    (extractLoopAux fails reg t c tr ps).1 =
        sumCounts (extractLoopAux fails reg t c tr ps).2.1 ∧
    (∀ e ∈ (extractLoopAux fails reg t c tr ps).2.1, 1 ≤ e.2) := by
  intro ps
  induction ps with
  | nil =>
    intro t c tr h1 h2
    exact ⟨by simp only [extractLoopAux]; exact h1, by simp only [extractLoopAux]; exact h2⟩
  | cons pr ps ih =>
    intro t c tr h1 h2
    by_cases h : fails pr.pid pr
    · simp only [extractLoopAux, h, if_true, ite_true]
      exact ih t c _ h1 h2
    · simp only [extractLoopAux, h, if_false, ite_false, Bool.false_eq_true]
      refine ih _ _ _ ?_ ?_
      · rw [sumCounts_dictIncr, h1]
      · intro e he
        rcases mem_dictUpsert _ _ _ e he with h' | h'
        · exact h2 e h'
        · rw [h']
          simp

/-- Claim C10: the aggregate result satisfies that the total processed
count equals the sum of the per-handler counts, and every per-handler
count present in the counts map is at least 1. -/
theorem c10_result_invariant (os : PyOracles) (fails : Nat → Pair → Bool)
    (reg : Registry) (only : Option String) (warcs : List (List WarcRecord)) :
    (runResult os fails reg only warcs).totalProcessed =
      sumCounts (runResult os fails reg only warcs).pluginCounts ∧
    ∀ e ∈ (runResult os fails reg only warcs).pluginCounts, 1 ≤ e.2 := by
  show (runExtract os fails reg only warcs).1.totalProcessed = _ ∧
    ∀ e ∈ (runExtract os fails reg only warcs).1.pluginCounts, 1 ≤ e.2
  unfold runExtract
  dsimp only
  exact extractLoop_inv fails reg _ 0 [] [] (by simp [sumCounts]) (by simp)

/-! ## C5: archive with no matching handler -/

theorem finaliseEvents_nil_used :
    ∀ (ps : List PluginSpec) (i : Nat), finaliseEventsFrom [] i ps = [] := by
  intro ps
  induction ps with
  | nil => intro i; rfl
  | cons pl ps ih => intro i; simp [finaliseEventsFrom, ih]

theorem pass1_no_match (search : String → String → Bool) (reg : Registry)
    (only : Option String) :
    ∀ (recs : List WarcRecord) (st : RunStats) (m : ReqMap),
    (∀ rec ∈ recs, ∀ url, pyStr rec.targetURI = some url →
        resolveUrl search reg url only = none) →
    pass1Aux search reg only st m recs = (st, m) := by
  intro recs
  induction recs with
  | nil => intro st m _; rfl
  | cons rec rs ih =>
    intro st m h
    have hrest : ∀ r ∈ rs, ∀ url, pyStr r.targetURI = some url →
        resolveUrl search reg url only = none := by
      intro r hr url hu
      exact h r (List.mem_cons_of_mem _ hr) url hu
    by_cases ht : rec.recType = "request"
    · rcases h1 : pyStr rec.targetURI with _ | url
      · simp [pass1Aux, ht, h1, ih _ _ hrest]
      · rcases h2 : pyStr rec.concurrentTo with _ | conc
        · simp [pass1Aux, ht, h1, h2, ih _ _ hrest]
        · rcases h3 : pyStr rec.recordID with _ | rid
          · simp [pass1Aux, ht, h1, h2, h3, ih _ _ hrest]
          · have hres : resolveUrl search reg url only = none :=
              h rec (List.mem_cons_self _ _) url h1
            simp [pass1Aux, ht, h1, h2, h3, getPluginForUrl, hres, ih _ _ hrest]
    · simp [pass1Aux, ht, ih _ _ hrest]

theorem iter_no_match (os : PyOracles) (reg : Registry) (only : Option String) :
    ∀ (ws : List (List WarcRecord)) (st : RunStats) (acc : List Pair),
    (∀ warc ∈ ws, ∀ rec ∈ warc, ∀ url, pyStr rec.targetURI = some url →
        resolveUrl os.search reg url only = none) →
    iterAux os reg only st acc ws = (st, acc) := by
  intro ws
  induction ws with
  | nil => intro st acc _; rfl
  | cons warc ws ih =>
    intro st acc h
    have h1 : pass1Aux os.search reg only st [] warc = (st, []) :=
      pass1_no_match os.search reg only warc st []
        (fun rec hr url hu => h warc (List.mem_cons_self _ _) rec hr url hu)
    have hrest : ∀ w ∈ ws, ∀ rec ∈ w, ∀ url, pyStr rec.targetURI = some url →
        resolveUrl os.search reg url only = none :=
      fun w hw rec hr url hu => h w (List.mem_cons_of_mem _ hw) rec hr url hu
    simp only [iterAux]
    rw [h1]
    simp [ih _ _ hrest]

/-- Claim C5: when no request URL of the archive resolves to any handler,
the run yields zero pairs, produces no extract or finalise event, returns
the zero aggregate, and pass 1 retains no request metadata for any WARC
member under any statistics state. -/
theorem c5_unmatched_archive (os : PyOracles) (fails : Nat → Pair → Bool)
    (reg : Registry) (only : Option String) (warcs : List (List WarcRecord))
    (h : ∀ warc ∈ warcs, ∀ rec ∈ warc, ∀ url, pyStr rec.targetURI = some url →
        resolveUrl os.search reg url only = none) :
    iterPairs os reg only warcs = (initStats, []) ∧
    runTrace os fails reg only warcs = [] ∧
    runResult os fails reg only warcs = ⟨0, []⟩ ∧
    (∀ st : RunStats, ∀ warc ∈ warcs, (pass1Aux os.search reg only st [] warc).2 = []) := by
  have hiter : iterPairs os reg only warcs = (initStats, []) :=
    iter_no_match os reg only warcs initStats [] h
  refine ⟨hiter, ?_, ?_, ?_⟩
  · show (runExtract os fails reg only warcs).2.2 = []
    unfold runExtract
    dsimp only
    rw [hiter]
    simp [extractLoopAux, initStats, finaliseEvents_nil_used]
  · show (runExtract os fails reg only warcs).1 = ⟨0, []⟩
    unfold runExtract
    dsimp only
    rw [hiter]
    simp [extractLoopAux]
  · intro st warc hw
    rw [pass1_no_match os.search reg only warc st []
      (fun rec hr url hu => h warc hw rec hr url hu)]

/-- Witness for C5: a one-request archive whose URL no handler claims. -/
theorem c5_unmatched_archive_witness :
    iterPairs oraclesNever (initRegistry [⟨"P", ["x*"]⟩]) none
        [[mkRequestRec "https://other.example/" "c1" "r1"]] = (initStats, []) ∧
    runTrace oraclesNever noFail (initRegistry [⟨"P", ["x*"]⟩]) none
        [[mkRequestRec "https://other.example/" "c1" "r1"]] = [] := by
  have h := c5_unmatched_archive oraclesNever noFail (initRegistry [⟨"P", ["x*"]⟩]) none
      [[mkRequestRec "https://other.example/" "c1" "r1"]]
      (by
        intro warc hw rec hr url hu
        simp only [List.mem_singleton] at hw
        subst hw
        simp only [List.mem_singleton] at hr
        subst hr
        simp only [mkRequestRec, pyStr] at hu
        rw [if_neg (by decide)] at hu
        cases hu
        decide)
  exact ⟨h.1, h.2.1⟩

/-! ## C3: query parameter parsing -/

theorem dictGet_toQueryData (m : List (String × List String)) (k : String) :
    dictGet (toQueryData m) k =
      (dictGet m k).map (fun l => match l with | [v] => QueryVal.str v | l => QueryVal.list l) := by
  induction m with
  | nil => simp [toQueryData, dictGet]
  | cons e m ih =>
    by_cases h : e.1 = k
    · simp [toQueryData, dictGet, h]
    · simp only [toQueryData, List.map_cons, dictGet, h, if_false, ite_false]
      exact ih

theorem groupPairs_lookup :
    ∀ (ps : List (String × String)) (m : List (String × List String)) (k : String),
    dictGet (ps.foldl (fun m p => dictUpsert m p.1 ((dictGet m p.1).getD [] ++ [p.2])) m) k =
      match dictGet m k with
      | some l => some (l ++ (ps.filter (fun p => p.1 == k)).map (fun p => p.2))
      | none =>
        if ((ps.filter (fun p => p.1 == k)).map (fun p => p.2)).isEmpty then none
        else some ((ps.filter (fun p => p.1 == k)).map (fun p => p.2)) := by
  intro ps
  induction ps with
  | nil =>
    intro m k
    rcases h : dictGet m k with _ | l <;> simp [h]
  | cons p ps ih =>
    intro m k
    obtain ⟨a, b⟩ := p
    rw [List.foldl_cons, ih]
    by_cases hak : a = k
    · subst hak
      rw [dictGet_upsert_self]
      have hfe : List.filter (fun p => p.1 == a) ((a, b) :: ps) =
          (a, b) :: List.filter (fun p => p.1 == a) ps := by
        simp [List.filter_cons]
      rw [hfe]
      rcases h : dictGet m a with _ | l
      · simp [h]
      · simp [h, List.append_assoc]
    · rw [dictGet_upsert_ne _ _ _ _ (fun hh => hak hh.symm)]
      have hfe : List.filter (fun p => p.1 == k) ((a, b) :: ps) =
          List.filter (fun p => p.1 == k) ps := by
        simp [List.filter_cons, hak]
      rw [hfe]

theorem plusToSpace_id (l : List Char) (h : l.all (fun c => c != '+') = true) :
    plusToSpace l = l := by
  induction l with
  | nil => rfl
  | cons c r ih =>
    simp only [List.all_cons, Bool.and_eq_true, bne_iff_ne, ne_eq] at h
    unfold plusToSpace
    simp only [List.map_cons]
    rw [if_neg h.1]
    congr 1
    exact ih h.2

theorem qDecode_plain (uq : String → String)
    (huq : ∀ s : String, s.data.all (fun c => c != '%') = true → uq s = s)
    (l : List Char) (h1 : l.all (fun c => c != '+') = true)
    (h2 : l.all (fun c => c != '%') = true) : qDecode uq l = ⟨l⟩ := by
  unfold qDecode
  rw [plusToSpace_id l h1]
  exact huq ⟨l⟩ h2

theorem parseQsl_plain (uq : String → String) (qs : String)
    (huq : ∀ s : String, s.data.all (fun c => c != '%') = true → uq s = s)
    (hq : plainQuery qs = true) : parseQsl uq qs = rawFields qs := by
  unfold parseQsl rawFields
  unfold plainQuery at hq
  rw [List.all_eq_true] at hq
  apply List.filterMap_congr
  intro f hf
  have hfq := hq f hf
  rcases hs : splitAtFirst '=' f with _ | ⟨n, v⟩
  · rw [hs] at hfq; simp at hfq
  · rw [hs] at hfq
    simp only [Bool.and_eq_true, Bool.not_eq_true', List.all_append] at hfq
    obtain ⟨hv, hnv⟩ := hfq
    have hf0 : f ≠ [] := by
      intro h0
      rw [h0] at hs
      simp [splitAtFirst] at hs
    have hn1 : n.all (fun c => c != '%' && c != '+') = true := hnv.1
    have hv1 : v.all (fun c => c != '%' && c != '+') = true := hnv.2
    have hsplit : ∀ (l : List Char), l.all (fun c => c != '%' && c != '+') = true →
        l.all (fun c => c != '+') = true ∧ l.all (fun c => c != '%') = true := by
      intro l hl
      rw [List.all_eq_true] at hl
      constructor
      · rw [List.all_eq_true]
        intro c hc
        exact (Bool.and_eq_true _ _ |>.mp (hl c hc)).2
      · rw [List.all_eq_true]
        intro c hc
        exact (Bool.and_eq_true _ _ |>.mp (hl c hc)).1
    obtain ⟨hnp, hnc⟩ := hsplit n hn1
    obtain ⟨hvp, hvc⟩ := hsplit v hv1
    simp only [hf0, if_false, ite_false]
    have hvne : v ≠ [] := by
      intro h0
      rw [h0] at hv
      simp at hv
    rw [if_neg hvne]
    rw [qDecode_plain uq huq n hnp hnc, qDecode_plain uq huq v hvp hvc]
    rfl

/-- Claim C3's premise is unreachable in the program: at an archive holding
a matched request (URL x?a=1) and its correlated response — the input at
which the claim (and spec scenario A) require a pair to be yielded with
parsed query parameters — pass 2 executes `ResponseData(content=..., ...)`,
which raises `TypeError` because `warcex/data.py` defines `ResponseData`
as a `typing.Protocol`; the iteration aborts and no pair is ever yielded,
so the claimed query-parameter contract never gets a real pair to apply
to.  This theorem evaluates the faithful pipeline at that failing input. -/
theorem c3_query_params_code_bug :
    iterPairsE oraclesX (initRegistry [⟨"P", ["x*"]⟩]) none
        [[mkRequestRec "x?a=1" "c1" "r1", mkResponseRec "c1"]] =
      Except.error PyErr.typeError ∧
    runExtractE oraclesX noFail (initRegistry [⟨"P", ["x*"]⟩]) none
        [[mkRequestRec "x?a=1" "c1" "r1", mkResponseRec "c1"]] =
      Except.error PyErr.typeError := by
  exact ⟨by decide, by decide⟩

/-! ## C8: pattern-form matching semantics -/

theorem tailOk_of_nlFree : ∀ (r : List Char), nlFree r = true → tailOk r = true := by
  intro r
  induction r with
  | nil => intro _; rfl
  | cons c r ih =>
    intro h
    simp only [nlFree, List.all_cons, Bool.and_eq_true, bne_iff_ne, ne_eq] at h
    simp only [tailOk, h.1, if_false, ite_false]
    exact ih (by simp [nlFree, h.2])

theorem pyPrefixMatchL_iff : ∀ (p u : List Char), nlFree u = true →
    (pyPrefixMatchL p u = true ↔ ∃ r, u = p ++ r)
  | [], u, hu => by
    simp only [pyPrefixMatchL, List.nil_append]
    constructor
    · intro _; exact ⟨u, rfl⟩
    · intro _; exact tailOk_of_nlFree u hu
  | c :: p, [], _ => by
    simp [pyPrefixMatchL]
  | c :: p, d :: u, hu => by
    have hu' : nlFree u = true := by
      simp only [nlFree, List.all_cons, Bool.and_eq_true] at hu
      exact hu.2
    simp only [pyPrefixMatchL, Bool.and_eq_true, beq_iff_eq]
    rw [pyPrefixMatchL_iff p u hu']
    constructor
    · rintro ⟨hcd, r, hr⟩
      exact ⟨r, by simp [hcd, hr]⟩
    · rintro ⟨r, hr⟩
      simp only [List.cons_append, List.cons.injEq] at hr
      exact ⟨hr.1.symm, r, hr.2⟩

theorem pyExactMatchL_iff (p u : List Char) (hu : nlFree u = true) :
    pyExactMatchL p u = true ↔ u = p := by
  unfold pyExactMatchL
  simp only [Bool.or_eq_true, beq_iff_eq]
  constructor
  · rintro (h | h)
    · exact h
    · exfalso
      rw [h] at hu
      simp [nlFree, List.all_append] at hu
  · intro h; exact Or.inl h

/-- Counterexample to C8 as stated: the matcher compiled for the exact
pattern "a" accepts the URL "a" followed by a newline (Python's dollar
anchor also matches just before a trailing newline, and search is used),
and resolve routes that URL to the owning handler, although the URL does
not equal the pattern string. -/
theorem c8_pattern_semantics_counterexample :
    formSem searchExactA "a" "a\n" = true ∧
    resolveUrl searchExactA (initRegistry [⟨"A", ["a"]⟩]) "a\n" none = some 0 ∧
    ("a\n" : String) ≠ "a" := by
  refine ⟨by decide, by decide, by decide⟩

/-- Claim C8 amended: a slash-delimited pattern is matched by searching the
enclosed regular expression (and is compiled verbatim to it); for URLs
containing no newline, a trailing-wildcard pattern matches exactly the URLs
starting with its stem and an exact pattern matches exactly the URL equal
to it.  (For URLs with newlines the compiled anchors also accept a single
trailing newline, as the counterexample shows.) -/
theorem c8_pattern_semantics (search : String → String → Bool) (ep url : String) :
    (isRegexForm ep = true →
        formSem search ep url = search (stripSlashes ep) url ∧
        convertPattern ep = stripSlashes ep) ∧
    (isRegexForm ep = false → isStarForm ep = true → nlFreeS url = true →
        (formSem search ep url = true ↔ ∃ r, url.data = (starBody ep).data ++ r)) ∧
    (isRegexForm ep = false → isStarForm ep = false → nlFreeS url = true →
        (formSem search ep url = true ↔ url = ep)) := by
  refine ⟨?_, ?_, ?_⟩
  · intro h
    exact ⟨by simp [formSem, h], by simp [convertPattern, h]⟩
  · intro h1 h2 hu
    simp only [formSem, h1, h2, if_true, ite_true, if_false, ite_false, Bool.false_eq_true]
    exact pyPrefixMatchL_iff (starBody ep).data url.data hu
  · intro h1 h2 hu
    simp only [formSem, h1, h2, if_false, ite_false, Bool.false_eq_true]
    rw [show pyExactMatch ep url = pyExactMatchL ep.data url.data from rfl]
    rw [pyExactMatchL_iff ep.data url.data hu]
    constructor
    · intro h
      cases url
      cases ep
      simp only at h
      rw [h]
    · intro h
      rw [h]

/-- Witness for amended C8 on concrete patterns and newline-free URLs. -/
theorem c8_pattern_semantics_witness :
    formSem searchNever "x*" "xyz" = true ∧ formSem searchNever "b" "b" = true := by
  constructor
  · exact ((c8_pattern_semantics searchNever "x*" "xyz").2.1 (by decide) (by decide)
      (by decide)).mpr ⟨['y', 'z'], by decide⟩
  · exact ((c8_pattern_semantics searchNever "b" "b").2.2 (by decide) (by decide)
      (by decide)).mpr rfl

/-! ## Routing soundness lemmas (shared by C1 and C2) -/

theorem mem_addUsed_self (l : List String) (n : String) : n ∈ addUsed l n := by
  unfold addUsed
  by_cases h : n ∈ l
  · simp [h]
  · simp [h]

theorem mem_addUsed_of_mem (l : List String) (n x : String) (h : x ∈ l) :
    x ∈ addUsed l n := by
  unfold addUsed
  by_cases hn : n ∈ l
  · simpa [hn]
  · simp [hn, h]

theorem mem_addEndpoints :
    ∀ (eps : List String) (i : Nat) (m : PatternMap) (e : String × Nat),
    e ∈ addEndpoints i m eps →
    e ∈ m ∨ ∃ ep ∈ eps, e = (convertPattern ep, i) := by
  intro eps
  induction eps with
  | nil => intro i m e he; exact Or.inl he
  | cons ep eps ih =>
    intro i m e he
    rcases ih i (dictUpsert m (convertPattern ep) i) e he with h' | ⟨ep', hep', hee⟩
    · rcases mem_dictUpsert _ _ _ e h' with h'' | h''
      · exact Or.inl h''
      · exact Or.inr ⟨ep, List.mem_cons_self _ _, h''⟩
    · exact Or.inr ⟨ep', List.mem_cons_of_mem _ hep', hee⟩

theorem mem_buildFrom :
    ∀ (ps : List PluginSpec) (i : Nat) (m : PatternMap) (e : String × Nat),
    e ∈ buildFrom m i ps →
    e ∈ m ∨ ∃ t pl, ps.get? t = some pl ∧ e.2 = i + t ∧
        ∃ ep ∈ pl.endpoints, e.1 = convertPattern ep := by
  intro ps
  induction ps with
  | nil => intro i m e he; exact Or.inl he
  | cons pl ps ih =>
    intro i m e he
    rcases ih (i + 1) (addEndpoints i m pl.endpoints) e he with h' | ⟨t, pl', hget, hidx, hep⟩
    · rcases mem_addEndpoints pl.endpoints i m e h' with h'' | ⟨ep, hep, hee⟩
      · exact Or.inl h''
      · refine Or.inr ⟨0, pl, rfl, ?_, ⟨ep, hep, ?_⟩⟩
        · rw [hee]
          simp
        · rw [hee]
    · refine Or.inr ⟨t + 1, pl', ?_, ?_, hep⟩
      · simpa using hget
      · omega

theorem mem_buildPatternMap (plugins : List PluginSpec) (e : String × Nat)
    (he : e ∈ buildPatternMap plugins) :
    ∃ pl, plugins.get? e.2 = some pl ∧ ∃ ep ∈ pl.endpoints, e.1 = convertPattern ep := by
  rcases mem_buildFrom plugins 0 [] e he with h | ⟨t, pl, hget, hidx, hep⟩
  · simp at h
  · refine ⟨pl, ?_, hep⟩
    rw [hidx]
    simpa using hget

theorem scanMap_some (search : String → String → Bool) (url : String) :
    ∀ (m : PatternMap) (pid : Nat), scanMap search url m = some pid →
    ∃ k, (k, pid) ∈ m ∧ search k url = true := by
  intro m
  induction m with
  | nil => intro pid h; simp [scanMap] at h
  | cons e m ih =>
    intro pid h
    by_cases hs : search e.1 url
    · rw [scanMap, if_pos hs] at h
      cases h
      exact ⟨e.1, by simp, hs⟩
    · rw [scanMap, if_neg hs] at h
      obtain ⟨k, hk, hku⟩ := ih pid h
      exact ⟨k, List.mem_cons_of_mem _ hk, hku⟩

theorem scanRestricted_some (search : String → String → Bool) (reg : Registry)
    (name url : String) :
    ∀ (m : PatternMap) (pid : Nat), scanRestricted search reg name url m = some pid →
    ∃ k, (k, pid) ∈ m ∧ search k url = true := by
  intro m
  induction m with
  | nil => intro pid h; simp [scanRestricted] at h
  | cons e m ih =>
    intro pid h
    by_cases hs : nameOf reg e.2 = name ∧ search e.1 url = true
    · rw [scanRestricted, if_pos hs] at h
      cases h
      exact ⟨e.1, by simp, hs.2⟩
    · rw [scanRestricted, if_neg hs] at h
      obtain ⟨k, hk, hku⟩ := ih pid h
      exact ⟨k, List.mem_cons_of_mem _ hk, hku⟩

theorem resolveUrl_some (search : String → String → Bool) (reg : Registry)
    (url : String) (only : Option String) (pid : Nat)
    (h : resolveUrl search reg url only = some pid) :
    ∃ k, (k, pid) ∈ reg.patternMap ∧ search k url = true := by
  rcases only with _ | name
  · simp only [resolveUrl] at h
    exact scanMap_some search url reg.patternMap pid h
  · simp only [resolveUrl] at h
    by_cases he : (reg.plugins.filter (fun p => p.name == name)).isEmpty
    · rw [if_pos he] at h; cases h
    · rw [if_neg he] at h
      exact scanRestricted_some search reg name url reg.patternMap pid h

theorem resolve_valid (search : String → String → Bool) (plugins : List PluginSpec)
    (url : String) (only : Option String) (pid : Nat)
    (h : resolveUrl search (initRegistry plugins) url only = some pid) :
    ∃ pl, plugins.get? pid = some pl ∧
        ∃ ep ∈ pl.endpoints, search (convertPattern ep) url = true := by
  obtain ⟨k, hk, hku⟩ := resolveUrl_some search (initRegistry plugins) url only pid h
  obtain ⟨pl, hget, ep, hep, hkey⟩ := mem_buildPatternMap plugins (k, pid) hk
  exact ⟨pl, hget, ep, hep, by rw [← hkey]; exact hku⟩

theorem nameOf_get (plugins : List PluginSpec) (pid : Nat) (pl : PluginSpec)
    (h : plugins.get? pid = some pl) : nameOf (initRegistry plugins) pid = pl.name := by
  show ((plugins.get? pid).map PluginSpec.name).getD "" = pl.name
  rw [h]
  rfl

/-! ## Pipeline invariants (pairs are resolved and recorded as used) -/

theorem pass1_inv (search : String → String → Bool) (reg : Registry) (only : Option String) :
    ∀ (recs : List WarcRecord) (st : RunStats) (m : ReqMap),
    (∀ e ∈ (pass1Aux search reg only st m recs).2,
        e ∈ m ∨ (resolveUrl search reg e.2.url only = some e.2.pid ∧
          nameOf reg e.2.pid ∈ (pass1Aux search reg only st m recs).1.pluginsUsed)) ∧
    (∀ n ∈ st.pluginsUsed, n ∈ (pass1Aux search reg only st m recs).1.pluginsUsed) := by
  intro recs
  induction recs with
  | nil =>
    intro st m
    exact ⟨fun e he => Or.inl he, fun n hn => hn⟩
  | cons rec rs ih =>
    intro st m
    by_cases ht : rec.recType = "request"
    · rcases h1 : pyStr rec.targetURI with _ | url
      · simp only [pass1Aux, ht, if_true, ite_true, h1]
        exact ih st m
      · rcases h2 : pyStr rec.concurrentTo with _ | conc
        · simp only [pass1Aux, ht, if_true, ite_true, h1, h2]
          exact ih st m
        · rcases h3 : pyStr rec.recordID with _ | rid
          · simp only [pass1Aux, ht, if_true, ite_true, h1, h2, h3]
            exact ih st m
          · rcases hres : resolveUrl search reg url only with _ | pid
            · simp only [pass1Aux, ht, if_true, ite_true, h1, h2, h3, getPluginForUrl, hres]
              exact ih st m
            · simp only [pass1Aux, ht, if_true, ite_true, h1, h2, h3, getPluginForUrl, hres]
              set st' : RunStats :=
                ⟨addUsed st.pluginsUsed (nameOf reg pid), st.totalMatches + 1⟩ with hst'
              set m' : ReqMap := dictUpsert m rid (mkReqInfo rec url conc pid) with hm'
              have ihm := ih st' m'
              constructor
              · intro e he
                rcases ihm.1 e he with hm | hgood
                · rw [hm'] at hm
                  rcases mem_dictUpsert _ _ _ e hm with h' | h'
                  · exact Or.inl h'
                  · right
                    rw [h']
                    refine ⟨hres, ?_⟩
                    refine ihm.2 _ ?_
                    rw [hst']
                    exact mem_addUsed_self _ _
                · exact Or.inr hgood
              · intro n hn
                refine ihm.2 n ?_
                rw [hst']
                exact mem_addUsed_of_mem _ _ _ hn
    · simp only [pass1Aux, ht, if_false, ite_false, Bool.false_eq_true]
      exact ih st m

theorem yield_inv (uq : String → String) (rm : RespMap) :
    ∀ (reqm : ReqMap) (pr : Pair), pr ∈ yieldAux uq rm reqm →
    ∃ rid info, (rid, info) ∈ reqm ∧ pr.pid = info.pid ∧ pr.req.url = info.url := by
  intro reqm
  induction reqm with
  | nil => intro pr h; simp [yieldAux] at h
  | cons e rest ih =>
    intro pr h
    obtain ⟨rid0, info0⟩ := e
    rcases hg : dictGet rm info0.concurrentTo with _ | rsp
    · rw [yieldAux, hg] at h
      obtain ⟨rid, info, hmem, hpid, hurl⟩ := ih pr h
      exact ⟨rid, info, List.mem_cons_of_mem _ hmem, hpid, hurl⟩
    · rw [yieldAux, hg] at h
      rcases List.mem_cons.mp h with h' | h'
      · refine ⟨rid0, info0, List.mem_cons_self _ _, ?_, ?_⟩
        · rw [h']; rfl
        · rw [h']; rfl
      · obtain ⟨rid, info, hmem, hpid, hurl⟩ := ih pr h'
        exact ⟨rid, info, List.mem_cons_of_mem _ hmem, hpid, hurl⟩

theorem iterAux_inv (os : PyOracles) (reg : Registry) (only : Option String) :
    ∀ (ws : List (List WarcRecord)) (st : RunStats) (acc : List Pair),
    (∀ pr ∈ (iterAux os reg only st acc ws).2,
        pr ∈ acc ∨ (resolveUrl os.search reg pr.req.url only = some pr.pid ∧
          nameOf reg pr.pid ∈ (iterAux os reg only st acc ws).1.pluginsUsed)) ∧
    (∀ n ∈ st.pluginsUsed, n ∈ (iterAux os reg only st acc ws).1.pluginsUsed) := by
  intro ws
  induction ws with
  | nil =>
    intro st acc
    exact ⟨fun pr hpr => Or.inl hpr, fun n hn => hn⟩
  | cons warc ws ih =>
    intro st acc
    have hp1 := pass1_inv os.search reg only warc st []
    by_cases hemp : (pass1Aux os.search reg only st [] warc).2.isEmpty
    · simp only [iterAux, hemp, if_true, ite_true]
      constructor
      · intro pr hpr
        rcases (ih _ acc).1 pr hpr with h | h
        · exact Or.inl h
        · exact Or.inr h
      · intro n hn
        exact (ih _ acc).2 n (hp1.2 n hn)
    · simp only [iterAux, hemp, if_false, ite_false, Bool.false_eq_true]
      set p1 := pass1Aux os.search reg only st [] warc with hp1def
      set rm := pass2Aux (p1.2.map (fun e => e.2.concurrentTo)) [] warc with hrmdef
      set acc' := acc ++ yieldAux os.unquote rm p1.2 with hacc'
      constructor
      · intro pr hpr
        rcases (ih p1.1 acc').1 pr hpr with h | h
        · rw [hacc'] at h
          rcases List.mem_append.mp h with h' | h'
          · exact Or.inl h'
          · right
            obtain ⟨rid, info, hmem, hpid, hurl⟩ := yield_inv os.unquote rm p1.2 pr h'
            rcases hp1.1 (rid, info) hmem with hfalse | ⟨hres, hname⟩
            · simp at hfalse
            · constructor
              · rw [hurl, hpid]
                exact hres
              · rw [hpid]
                exact (ih p1.1 acc').2 _ hname
        · exact Or.inr h
      · intro n hn
        exact (ih p1.1 acc').2 n (hp1.2 n hn)

/-! ## C1: finalisation condition -/

theorem mem_finaliseEventsFrom_ge (used : List String) :
    ∀ (ps : List PluginSpec) (i : Nat) (e : Event),
    e ∈ finaliseEventsFrom used i ps → ∃ k, i ≤ k ∧ e = Event.finalise k := by
  intro ps
  induction ps with
  | nil => intro i e he; simp [finaliseEventsFrom] at he
  | cons pl ps ih =>
    intro i e he
    simp only [finaliseEventsFrom, List.mem_append] at he
    rcases he with he | he
    · by_cases h : pl.name ∈ used
      · simp only [h, if_true, ite_true, List.mem_singleton] at he
        exact ⟨i, Nat.le_refl i, he⟩
      · simp [h] at he
    · obtain ⟨k, hk, he'⟩ := ih (i + 1) e he
      exact ⟨k, by omega, he'⟩

theorem count_fin_from (used : List String) :
    ∀ (ps : List PluginSpec) (i t : Nat) (pl : PluginSpec),
    ps.get? t = some pl →
    List.count (Event.finalise (i + t)) (finaliseEventsFrom used i ps) =
      if pl.name ∈ used then 1 else 0 := by
  intro ps
  induction ps with
  | nil => intro i t pl h; simp at h
  | cons pl0 ps ih =>
    intro i t pl h
    rcases t with _ | t
    · simp only [List.get?] at h
      have heq : pl0 = pl := by injection h
      subst heq
      simp only [finaliseEventsFrom, List.count_append, Nat.add_zero]
      have hrest : List.count (Event.finalise i) (finaliseEventsFrom used (i + 1) ps) = 0 := by
        rw [List.count_eq_zero]
        intro hmem
        obtain ⟨k, hk, he⟩ := mem_finaliseEventsFrom_ge used ps (i + 1) _ hmem
        cases he
        omega
      rw [hrest]
      by_cases hu : pl0.name ∈ used
      · simp [hu]
      · simp [hu]
    · simp only [List.get?] at h
      have harith : i + (t + 1) = (i + 1) + t := by omega
      rw [harith]
      simp only [finaliseEventsFrom, List.count_append]
      rw [ih (i + 1) t pl h]
      have hhead : List.count (Event.finalise (i + 1 + t))
          (if pl0.name ∈ used then [Event.finalise i] else []) = 0 := by
        by_cases hu : pl0.name ∈ used
        · simp only [hu, if_true, ite_true]
          rw [List.count_eq_zero]
          intro hmem
          rw [List.mem_singleton] at hmem
          simp only [Event.finalise.injEq] at hmem
          omega
        · simp [hu]
      rw [hhead]
      simp

theorem fin_mem_finaliseEventsFrom (used : List String) :
    ∀ (ps : List PluginSpec) (i t : Nat) (pl : PluginSpec),
    ps.get? t = some pl → pl.name ∈ used →
    Event.finalise (i + t) ∈ finaliseEventsFrom used i ps := by
  intro ps
  induction ps with
  | nil => intro i t pl h _; simp at h
  | cons pl0 ps ih =>
    intro i t pl h hu
    rcases t with _ | t
    · simp only [List.get?] at h
      have heq : pl0 = pl := by injection h
      subst heq
      simp only [finaliseEventsFrom, List.mem_append]
      left
      simp [hu]
    · simp only [List.get?] at h
      have harith : i + (t + 1) = (i + 1) + t := by omega
      rw [harith]
      simp only [finaliseEventsFrom, List.mem_append]
      right
      exact ih (i + 1) t pl h hu

theorem stepEvent_not_fin (fails : Nat → Pair → Bool) (pr : Pair) :
    isFinEvent (stepEvent fails pr) = false := by
  unfold stepEvent
  by_cases h : fails pr.pid pr <;> simp [h, isFinEvent]

theorem pass2AuxE_ok (concIds : List String) :
    ∀ (recs : List WarcRecord) (m m' : RespMap),
    pass2AuxE concIds m recs = Except.ok m' → m' = m := by
  intro recs
  induction recs with
  | nil =>
    intro m m' h
    injection h with h
    exact h.symm
  | cons rec rs ih =>
    intro m m' h
    by_cases ht : rec.recType = "response"
    · rcases h1 : pyStr rec.recordID with _ | rid
      · simp only [pass2AuxE, ht, if_true, ite_true, h1] at h
        exact ih m m' h
      · by_cases hc : rid ∈ concIds
        · simp only [pass2AuxE, ht, if_true, ite_true, h1, hc] at h
          exact Except.noConfusion h
        · simp only [pass2AuxE, ht, if_true, ite_true, h1, hc, if_false, ite_false] at h
          exact ih m m' h
    · simp only [pass2AuxE, ht, if_false, ite_false, Bool.false_eq_true] at h
      exact ih m m' h

theorem yieldAux_nil_rm (uq : String → String) :
    ∀ (reqm : ReqMap), yieldAux uq [] reqm = [] := by
  intro reqm
  induction reqm with
  | nil => rfl
  | cons e rest ih =>
    obtain ⟨rid, info⟩ := e
    exact ih

theorem iterAuxE_ok_pairs (os : PyOracles) (reg : Registry) (only : Option String) :
    ∀ (ws : List (List WarcRecord)) (st : RunStats) (acc : List Pair)
      (st' : RunStats) (pairs : List Pair),
    iterAuxE os reg only st acc ws = Except.ok (st', pairs) → pairs = acc := by
  intro ws
  induction ws with
  | nil =>
    intro st acc st' pairs h
    simp only [iterAuxE, Except.ok.injEq, Prod.mk.injEq] at h
    exact h.2.symm
  | cons warc ws ih =>
    intro st acc st' pairs h
    by_cases hemp : (pass1Aux os.search reg only st [] warc).2.isEmpty
    · simp only [iterAuxE, hemp, if_true, ite_true] at h
      exact ih _ _ _ _ h
    · simp only [iterAuxE, hemp, if_false, ite_false, Bool.false_eq_true] at h
      rcases hp2 : pass2AuxE ((pass1Aux os.search reg only st [] warc).2.map
          (fun e => e.2.concurrentTo)) [] warc with e | rm
      · rw [hp2] at h
        exact Except.noConfusion h
      · rw [hp2] at h
        have h2 : iterAuxE os reg only (pass1Aux os.search reg only st [] warc).1
            (acc ++ yieldAux os.unquote rm (pass1Aux os.search reg only st [] warc).2) ws =
            Except.ok (st', pairs) := h
        have hrm : rm = [] := pass2AuxE_ok _ warc [] rm hp2
        subst hrm
        rw [yieldAux_nil_rm, List.append_nil] at h2
        exact ih _ _ _ _ h2

/-- Counterexample to C1 as stated, on the faithful pipeline: an archive
holding one matched request with no correlated response record.  Pass 2
constructs nothing (so it does not raise), the run completes with zero
pairs, the handler's extract is never called — the trace holds no extract
event — yet finalise is called for it: the used set is populated at
URL-resolution time in pass 1, not at extract time. -/
theorem c1_finalise_counterexample :
    runExtractE oraclesX noFail (initRegistry [⟨"P", ["x*"]⟩]) none
        [[mkRequestRec "xyz" "c1" "r1"]] =
      Except.ok (⟨0, []⟩, ⟨["P"], 1⟩, [Event.finalise 0]) := by
  decide

/-- Claim C1 amended, over the faithful pipeline: a run aborts (with the
pass-2 TypeError, before any finalisation and without any extract call)
exactly when the iteration does; a run that completes has processed zero
pairs — extract() is never called in any run, since a pair would need a
response map entry whose construction raises — and its whole trace is
finalise calls: exactly one per handler in the used set, i.e. per handler
to which some request URL resolved in pass 1.  The claimed iff fails:
handlers are finalised although their extract() was never called. -/
theorem c1_finalise_amended (os : PyOracles) (fails : Nat → Pair → Bool)
    (plugins : List PluginSpec) (only : Option String) (warcs : List (List WarcRecord)) :
    (∀ e, iterPairsE os (initRegistry plugins) only warcs = Except.error e →
        runExtractE os fails (initRegistry plugins) only warcs = Except.error e) ∧
    (∀ res st' tr,
        runExtractE os fails (initRegistry plugins) only warcs = Except.ok (res, st', tr) →
      res = ⟨0, []⟩ ∧
      (∀ e ∈ tr, isFinEvent e = true) ∧
      (∀ pid pl, plugins.get? pid = some pl →
          List.count (Event.finalise pid) tr =
            if pl.name ∈ st'.pluginsUsed then 1 else 0)) := by
  constructor
  · intro e he
    unfold runExtractE
    rw [he]
  · intro res st' tr h
    unfold runExtractE at h
    rcases hit : iterPairsE os (initRegistry plugins) only warcs with e | ⟨st0, pairs0⟩
    · rw [hit] at h
      exact Except.noConfusion h
    · rw [hit] at h
      have hpairs : pairs0 = [] :=
        iterAuxE_ok_pairs os (initRegistry plugins) only warcs initStats [] st0 pairs0 hit
      subst hpairs
      have h' : ((⟨0, []⟩ : ExtractionResult), st0,
          ([] : List Event) ++ finaliseEventsFrom st0.pluginsUsed 0 plugins) =
          (res, st', tr) := Except.ok.inj h
      simp only [Prod.mk.injEq] at h'
      obtain ⟨hres, hst, htr⟩ := h'
      subst hres
      subst hst
      subst htr
      refine ⟨rfl, ?_, ?_⟩
      · intro e he
        rw [List.nil_append] at he
        exact finaliseEvents_all_fin _ _ 0 e he
      · intro pid pl hget
        rw [List.nil_append]
        have := count_fin_from st0.pluginsUsed plugins 0 pid pl hget
        simpa using this

/-- Witness for amended C1: the abort case at an archive with a correlated
response, and the completing case at an archive with a matched, unanswered
request, where the handler is finalised exactly once. -/
theorem c1_finalise_amended_witness :
    runExtractE oraclesX noFail (initRegistry [⟨"P", ["x*"]⟩]) none
        [[mkRequestRec "xy" "c1" "r1", mkResponseRec "c1"]] =
      Except.error PyErr.typeError ∧
    (∃ st' tr, runExtractE oraclesX noFail (initRegistry [⟨"P", ["x*"]⟩]) none
        [[mkRequestRec "xy" "c1" "r1"]] = Except.ok (⟨0, []⟩, st', tr) ∧
      List.count (Event.finalise 0) tr = 1) := by
  constructor
  · exact (c1_finalise_amended oraclesX noFail [⟨"P", ["x*"]⟩] none
      [[mkRequestRec "xy" "c1" "r1", mkResponseRec "c1"]]).1 PyErr.typeError (by decide)
  · refine ⟨⟨["P"], 1⟩, [Event.finalise 0], by decide, ?_⟩
    have h := (c1_finalise_amended oraclesX noFail [⟨"P", ["x*"]⟩] none
        [[mkRequestRec "xy" "c1" "r1"]]).2 ⟨0, []⟩ ⟨["P"], 1⟩ [Event.finalise 0] (by decide)
    have h2 := h.2.2 0 ⟨"P", ["x*"]⟩ rfl
    rw [h2]
    decide

/-! ## C2: resolution order -/

theorem pluginMatches_iff (search : String → String → Bool) (plugins : List PluginSpec)
    (i : Nat) (url : String) :
    pluginMatches search plugins i url ↔
      ∃ pl, plugins.get? i = some pl ∧ epMatch search url pl = true := by
  unfold pluginMatches epMatch
  constructor
  · rintro ⟨pl, hget, ep, hep, hs⟩
    exact ⟨pl, hget, List.any_eq_true.mpr ⟨ep, hep, hs⟩⟩
  · rintro ⟨pl, hget, hany⟩
    obtain ⟨ep, hep, hs⟩ := List.any_eq_true.mp hany
    exact ⟨pl, hget, ep, hep, hs⟩

theorem dictUpsert_append {β : Type} :
    ∀ (m : List (String × β)) (k : String) (v : β),
    (∀ e ∈ m, e.1 ≠ k) → dictUpsert m k v = m ++ [(k, v)] := by
  intro m
  induction m with
  | nil => intro k v _; rfl
  | cons e m ih =>
    intro k v h
    have he : e.1 ≠ k := h e (List.mem_cons_self _ _)
    simp only [dictUpsert, he, if_false, ite_false]
    rw [ih k v (fun e' he' => h e' (List.mem_cons_of_mem _ he'))]
    rfl

theorem addEndpoints_flat :
    ∀ (eps : List String) (i : Nat) (m : PatternMap),
    (∀ ep ∈ eps, ∀ e ∈ m, e.1 ≠ convertPattern ep) →
    (eps.map convertPattern).Nodup →
    addEndpoints i m eps = m ++ flatOne i eps := by
  intro eps
  induction eps with
  | nil => intro i m _ _; simp [addEndpoints, flatOne]
  | cons ep eps ih =>
    intro i m h hnd
    simp only [List.map_cons, List.nodup_cons] at hnd
    simp only [addEndpoints]
    rw [dictUpsert_append m (convertPattern ep) i
      (fun e he => h ep (List.mem_cons_self _ _) e he)]
    have hnext : ∀ ep' ∈ eps, ∀ e ∈ m ++ [(convertPattern ep, i)],
        e.1 ≠ convertPattern ep' := by
      intro ep' hep' e he
      rcases List.mem_append.mp he with h' | h'
      · exact h ep' (List.mem_cons_of_mem _ hep') e h'
      · rw [List.mem_singleton] at h'
        rw [h']
        intro hc
        refine hnd.1 ?_
        rw [show ((convertPattern ep, i) : String × Nat).1 = convertPattern ep from rfl] at hc
        rw [hc]
        exact List.mem_map_of_mem convertPattern hep'
    rw [ih i (m ++ [(convertPattern ep, i)]) hnext hnd.2]
    simp [flatOne]

theorem buildFrom_flat :
    ∀ (ps : List PluginSpec) (i : Nat) (m : PatternMap),
    (∀ e ∈ m, ∀ k, k ∈ (flatFrom i ps).map (fun x => x.1) → e.1 ≠ k) →
    ((flatFrom i ps).map (fun x => x.1)).Nodup →
    buildFrom m i ps = m ++ flatFrom i ps := by
  intro ps
  induction ps with
  | nil => intro i m _ _; simp [buildFrom, flatFrom]
  | cons pl ps ih =>
    intro i m h hnd
    have hkeys : (flatFrom i (pl :: ps)).map (fun x => x.1) =
        pl.endpoints.map convertPattern ++ (flatFrom (i + 1) ps).map (fun x => x.1) := by
      simp [flatFrom, flatOne, List.map_map, Function.comp]
    rw [hkeys] at h hnd
    rw [List.nodup_append] at hnd
    obtain ⟨hnd1, hnd2, hdisj⟩ := hnd
    simp only [buildFrom]
    rw [addEndpoints_flat pl.endpoints i m ?_ hnd1]
    · rw [ih (i + 1) (m ++ flatOne i pl.endpoints) ?_ hnd2]
      · simp [flatFrom]
      · intro e he k hk
        rcases List.mem_append.mp he with h' | h'
        · exact h e h' k (List.mem_append.mpr (Or.inr hk))
        · simp only [flatOne, List.mem_map] at h'
          obtain ⟨ep, hep, hee⟩ := h'
          rw [← hee]
          intro hc
          exact hdisj (hc ▸ List.mem_map_of_mem convertPattern hep) hk
    · intro ep hep e he
      exact h e he (convertPattern ep)
        (List.mem_append.mpr (Or.inl (List.mem_map_of_mem convertPattern hep)))

theorem buildPatternMap_flat (plugins : List PluginSpec)
    (hnd : (allKeys plugins).Nodup) : buildPatternMap plugins = flatFrom 0 plugins := by
  unfold buildPatternMap
  rw [buildFrom_flat plugins 0 [] (fun e he => by simp at he) hnd]
  rfl

theorem scanMap_append (search : String → String → Bool) (url : String) :
    ∀ (m1 m2 : PatternMap), scanMap search url (m1 ++ m2) =
      match scanMap search url m1 with
      | some pid => some pid
      | none => scanMap search url m2 := by
  intro m1
  induction m1 with
  | nil => intro m2; rfl
  | cons e m1 ih =>
    intro m2
    by_cases hs : search e.1 url
    · simp [scanMap, hs]
    · simp [scanMap, hs, ih]

theorem scanMap_flatOne (search : String → String → Bool) (url : String) :
    ∀ (eps : List String) (i : Nat), scanMap search url (flatOne i eps) =
      if eps.any (fun ep => search (convertPattern ep) url) then some i else none := by
  intro eps
  induction eps with
  | nil => intro i; rfl
  | cons ep eps ih =>
    intro i
    by_cases hs : search (convertPattern ep) url
    · simp [flatOne, scanMap, hs]
    · simp only [flatOne, List.map_cons, scanMap, hs, if_false, ite_false, Bool.false_eq_true]
      rw [show List.map (fun ep => (convertPattern ep, i)) eps = flatOne i eps from rfl, ih]
      simp [hs]

theorem scanFlat_first (search : String → String → Bool) (url : String) :
    ∀ (ps : List PluginSpec) (i : Nat),
    (∀ j, scanMap search url (flatFrom i ps) = some j →
      ∃ t pl, ps.get? t = some pl ∧ j = i + t ∧ epMatch search url pl = true ∧
        ∀ s pl', s < t → ps.get? s = some pl' → ¬ epMatch search url pl' = true) ∧
    (scanMap search url (flatFrom i ps) = none →
      ∀ t pl, ps.get? t = some pl → ¬ epMatch search url pl = true) := by
  intro ps
  induction ps with
  | nil =>
    intro i
    constructor
    · intro j h; simp [flatFrom, scanMap] at h
    · intro _ t pl h; simp at h
  | cons pl0 ps ih =>
    intro i
    by_cases hm : epMatch search url pl0 = true
    · have hscan : scanMap search url (flatFrom i (pl0 :: ps)) = some i := by
        rw [show flatFrom i (pl0 :: ps) = flatOne i pl0.endpoints ++ flatFrom (i + 1) ps
            from rfl,
          scanMap_append, scanMap_flatOne,
          show pl0.endpoints.any (fun ep => search (convertPattern ep) url) = true from hm]
        rfl
      constructor
      · intro j h
        rw [hscan] at h
        injection h with h
        refine ⟨0, pl0, rfl, by omega, hm, ?_⟩
        intro s pl' hs _
        exact absurd hs (by omega)
      · intro h
        rw [hscan] at h
        exact Option.noConfusion h
    · have hfalse : pl0.endpoints.any (fun ep => search (convertPattern ep) url) = false :=
        Bool.eq_false_iff.mpr hm
      have hscan : scanMap search url (flatFrom i (pl0 :: ps)) =
          scanMap search url (flatFrom (i + 1) ps) := by
        rw [show flatFrom i (pl0 :: ps) = flatOne i pl0.endpoints ++ flatFrom (i + 1) ps
            from rfl,
          scanMap_append, scanMap_flatOne, hfalse]
        rfl
      constructor
      · intro j h
        rw [hscan] at h
        obtain ⟨t, pl', hget, hj, hmatch, hmin⟩ := (ih (i + 1)).1 j h
        refine ⟨t + 1, pl', by simpa using hget, by omega, hmatch, ?_⟩
        intro s pl'' hs hget''
        rcases s with _ | s
        · simp only [List.get?] at hget''
          have heq : pl0 = pl'' := by injection hget''
          rw [← heq]
          exact hm
        · simp only [List.get?] at hget''
          exact hmin s pl'' (by omega) hget''
      · intro h
        rw [hscan] at h
        intro t pl' hget
        rcases t with _ | t
        · simp only [List.get?] at hget
          have heq : pl0 = pl' := by injection hget
          rw [← heq]
          exact hm
        · simp only [List.get?] at hget
          exact (ih (i + 1)).2 h t pl' hget

/-- Counterexample to C2 as stated: two handlers declaring the identical
pattern string "x*".  Both compile to the same regex source, so the second
dict assignment in the pattern-map build overwrites the first handler's
entry (re.compile returns the cached identical pattern object for an
identical source, and dict assignment replaces the value in place); the
URL "xy" matches declared patterns of both handlers, yet resolve returns
the later-registered handler 1, not the earlier handler 0. -/
theorem c2_resolution_order_counterexample :
    resolveUrl searchStarX (initRegistry [⟨"A", ["x*"]⟩, ⟨"B", ["x*"]⟩]) "xy" none = some 1 ∧
    pluginMatches searchStarX [⟨"A", ["x*"]⟩, ⟨"B", ["x*"]⟩] 0 "xy" ∧
    pluginMatches searchStarX [⟨"A", ["x*"]⟩, ⟨"B", ["x*"]⟩] 1 "xy" := by
  refine ⟨by decide, ?_, ?_⟩
  · exact ⟨⟨"A", ["x*"]⟩, rfl, "x*", by simp, by decide⟩
  · exact ⟨⟨"B", ["x*"]⟩, rfl, "x*", by simp, by decide⟩

/-- Claim C2 amended: (a) every yielded pair's URL matches (under the
compiled-pattern semantics) a declared pattern of its resolved handler;
(b) provided no two declared patterns compile to the identical regex
source string — otherwise the dict-keyed pattern map lets the later
declaration overwrite the owner, as the counterexample shows — resolve
returns exactly the earliest-registered handler having a matching
pattern, and returns a handler whenever any handler matches. -/
theorem c2_resolution_order (os : PyOracles) (plugins : List PluginSpec)
    (only : Option String) (warcs : List (List WarcRecord)) (url : String) :
    (FaithfulFor os.search plugins →
      ∀ pr ∈ (iterPairs os (initRegistry plugins) only warcs).2,
        ∃ pl, plugins.get? pr.pid = some pl ∧
          ∃ ep ∈ pl.endpoints, formSem os.search ep pr.req.url = true) ∧
    ((allKeys plugins).Nodup →
      (∀ j, resolveUrl os.search (initRegistry plugins) url none = some j →
        pluginMatches os.search plugins j url ∧
        ∀ i < j, ¬ pluginMatches os.search plugins i url) ∧
      (∀ i, pluginMatches os.search plugins i url →
        ∃ j, resolveUrl os.search (initRegistry plugins) url none = some j)) := by
  constructor
  · intro hf pr hpr
    rcases (iterAux_inv os (initRegistry plugins) only warcs initStats []).1 pr hpr with
      h | ⟨hres, _⟩
    · simp at h
    · obtain ⟨pl, hget, ep, hep, hsearch⟩ :=
        resolve_valid os.search plugins pr.req.url only pr.pid hres
      refine ⟨pl, hget, ep, hep, ?_⟩
      rw [← hf pr.pid pl hget ep hep pr.req.url]
      exact hsearch
  · intro hnd
    have hmap : resolveUrl os.search (initRegistry plugins) url none =
        scanMap os.search url (flatFrom 0 plugins) := by
      unfold resolveUrl initRegistry
      rw [buildPatternMap_flat plugins hnd]
    constructor
    · intro j h
      rw [hmap] at h
      obtain ⟨t, pl, hget, hj, hmatch, hmin⟩ := (scanFlat_first os.search url plugins 0).1 j h
      have hjt : j = t := by omega
      subst hjt
      constructor
      · exact (pluginMatches_iff os.search plugins j url).mpr ⟨pl, hget, hmatch⟩
      · intro i hi hpm
        obtain ⟨pl', hget', hmatch'⟩ := (pluginMatches_iff os.search plugins i url).mp hpm
        exact hmin i pl' hi hget' hmatch'
    · intro i hpm
      obtain ⟨pl, hget, hmatch⟩ := (pluginMatches_iff os.search plugins i url).mp hpm
      rcases hcase : resolveUrl os.search (initRegistry plugins) url none with _ | j
      · exfalso
        rw [hmap] at hcase
        exact (scanFlat_first os.search url plugins 0).2 hcase i pl hget hmatch
      · exact ⟨j, rfl⟩

/-- Witness for amended C2: two handlers with distinct compiled patterns;
the pair stream of a matching archive resolves soundly and the
second-registered handler is returned exactly when the first does not
match. -/
theorem c2_resolution_order_witness :
    (∃ pl, ([⟨"A", ["a*"]⟩, ⟨"B", ["b*"]⟩] : List PluginSpec).get? 0 = some pl ∧
      ∃ ep ∈ pl.endpoints, formSem searchAB ep "a1?q=1" = true) ∧
    pluginMatches searchAB [⟨"A", ["a*"]⟩, ⟨"B", ["b*"]⟩] 1 "b1" ∧
    ¬ pluginMatches searchAB [⟨"A", ["a*"]⟩, ⟨"B", ["b*"]⟩] 0 "b1" := by
  have hfaithful : FaithfulFor searchAB [⟨"A", ["a*"]⟩, ⟨"B", ["b*"]⟩] := by
    intro pid pl hget ep hep u
    rcases pid with _ | _ | n
    · simp only [List.get?] at hget
      have heq : (⟨"A", ["a*"]⟩ : PluginSpec) = pl := by injection hget
      rw [← heq] at hep
      simp only [List.mem_singleton] at hep
      subst hep
      rw [show convertPattern "a*" = "^a.*$" from by decide]
      show searchAB "^a.*$" u = formSem searchAB "a*" u
      unfold searchAB formSem
      rw [if_neg (by decide), if_pos (by decide)]
      rw [show (("^a.*$" : String) == "^a.*$") = true from by decide,
          show (("^a.*$" : String) == "^b.*$") = false from by decide]
      rw [show starBody "a*" = "a" from by decide]
      simp
    · simp only [List.get?] at hget
      have heq : (⟨"B", ["b*"]⟩ : PluginSpec) = pl := by injection hget
      rw [← heq] at hep
      simp only [List.mem_singleton] at hep
      subst hep
      rw [show convertPattern "b*" = "^b.*$" from by decide]
      show searchAB "^b.*$" u = formSem searchAB "b*" u
      unfold searchAB formSem
      rw [if_neg (by decide), if_pos (by decide)]
      rw [show (("^b.*$" : String) == "^a.*$") = false from by decide,
          show (("^b.*$" : String) == "^b.*$") = true from by decide]
      rw [show starBody "b*" = "b" from by decide]
      simp
    · simp [List.get?] at hget
  refine ⟨?_, ?_⟩
  · have ha := (c2_resolution_order oraclesAB [⟨"A", ["a*"]⟩, ⟨"B", ["b*"]⟩] none
        [[mkRequestRec "a1?q=1" "c1" "r1", mkResponseRec "c1"]] "b1").1 hfaithful
    have hpair : ∃ pr ∈ (iterPairs oraclesAB
        (initRegistry [⟨"A", ["a*"]⟩, ⟨"B", ["b*"]⟩]) none
        [[mkRequestRec "a1?q=1" "c1" "r1", mkResponseRec "c1"]]).2,
        pr.pid = 0 ∧ pr.req.url = "a1?q=1" := by
      refine ⟨(iterPairs oraclesAB (initRegistry [⟨"A", ["a*"]⟩, ⟨"B", ["b*"]⟩]) none
        [[mkRequestRec "a1?q=1" "c1" "r1", mkResponseRec "c1"]]).2.head (by decide), ?_, ?_, ?_⟩
      · exact List.head_mem _
      · decide
      · decide
    obtain ⟨pr, hmem, hpid, hurl⟩ := hpair
    have := ha pr hmem
    rw [hpid, hurl] at this
    exact this
  · have hb := ((c2_resolution_order oraclesAB [⟨"A", ["a*"]⟩, ⟨"B", ["b*"]⟩] none [] "b1").2
        (by decide)).1 1 (by decide)
    exact ⟨hb.1, hb.2 0 (by omega)⟩

end Warcex
